import Mathlib

/-!
Verification of the mqtt_receiver scripts (publisher.py, subscriber.py,
wait_for_broker.py) against their natural-language specification.

The Python sources are shallowly embedded: JSON values are an inductive
type (`Mqtt.Json`), Python dicts are insertion-ordered association lists,
the `json` library's `dumps`/`loads` pair is modelled by an executable
printer and a fuel-indexed recursive-descent reader, and the stateful
message handlers become pure step functions from state and message to
state and a list of emitted publish events.  IEEE-754 floats are kept out
of the model: a Python float is represented by the literal text it was
parsed from (`Json.float lit`), which is all the claims here need.
-/

namespace Mqtt

/-- JSON values as handled by Python's `json` module.  Integer-valued
number literals decode to `int`; any other number decodes to `float`,
carried as its literal text (floating-point arithmetic is never needed).
Objects are insertion-ordered association lists, as Python dicts are. -/
inductive Json where
  | null
  | bool (b : Bool)
  | int (n : Int)
  | float (lit : String)
  | str (s : String)
  | arr (xs : List Json)
  | obj (kvs : List (String × Json))

/-- The keys of an object member list, in order. -/
def jkeys (kvs : List (String × Json)) : List String :=
  kvs.map Prod.fst

/-- `d[k] = v` on a Python dict modelled as an association list: if the
key is present its value is updated in place, otherwise the pair is
appended at the end. -/
def pyDictInsert (kvs : List (String × Json)) (k : String) (v : Json) :
    List (String × Json) :=
  if kvs.any (fun p => p.1 = k) then
    kvs.map (fun p => if p.1 = k then (k, v) else p)
  else
    kvs ++ [(k, v)]

/-- Python's `{**a, **b}`: start from `a` and insert the pairs of `b`
left to right. -/
def pyMerge (a b : List (String × Json)) : List (String × Json) :=
  b.foldl (fun acc p => pyDictInsert acc p.1 p.2) a

/-- First value bound to `k`. -/
def jlookup (k : String) (kvs : List (String × Json)) : Option Json :=
  match kvs with
  | [] => none
  | p :: rest => if p.1 = k then some p.2 else jlookup k rest

/-- Last value bound to `k` (Python dict construction keeps the last
binding of a duplicated key). -/
def jlookupLast (k : String) (kvs : List (String × Json)) : Option Json :=
  jlookup k kvs.reverse

/-- Decimal digit character. -/
def digitChar (n : Nat) : Char := Char.ofNat (48 + n)

/-- Decimal printing of a natural number, accumulator style; the fuel
argument only needs to exceed the value. -/
def natPrintAux : Nat → Nat → List Char → List Char
  | 0, _, acc => acc
  | fuel + 1, n, acc =>
    if n < 10 then digitChar n :: acc
    else natPrintAux fuel (n / 10) (digitChar (n % 10) :: acc)

/-- Decimal printing of a natural number. -/
def natPrint (n : Nat) : List Char := natPrintAux (n + 1) n []

/-- Decimal printing of an integer (as Python `repr` of an int). -/
def intPrint (i : Int) : List Char :=
  if i < 0 then '-' :: natPrint i.natAbs else natPrint i.natAbs

/-- Value of a list of decimal digit characters. -/
def digitsVal (cs : List Char) : Nat :=
  cs.foldl (fun a c => a * 10 + (c.toNat - 48)) 0

/-- Lower-case hexadecimal digit character, as CPython's encoder emits. -/
def hexDigitChar (n : Nat) : Char :=
  if n < 10 then Char.ofNat (48 + n) else Char.ofNat (87 + n)

/-- How `json.dumps(..., ensure_ascii=False)` escapes one character inside
a string literal: quote, backslash and the five short control escapes get
two-character escapes, any other control character becomes `\u00xx`, and
everything else is emitted verbatim. -/
def escapeChar (c : Char) : List Char :=
  if c = '"' then ['\\', '"']
  else if c = '\\' then ['\\', '\\']
  else if c = '\n' then ['\\', 'n']
  else if c = '\t' then ['\\', 't']
  else if c = '\r' then ['\\', 'r']
  else if c = '\x08' then ['\\', 'b']
  else if c = '\x0c' then ['\\', 'f']
  else if c.toNat < 32 then
    ['\\', 'u', '0', '0', hexDigitChar (c.toNat / 16), hexDigitChar (c.toNat % 16)]
  else [c]

/-- Escape every character of a string body. -/
def escString : List Char → List Char
  | [] => []
  | c :: rest => escapeChar c ++ escString rest

mutual

/-- `json.dumps(v, ensure_ascii=False)` with the default separators
`", "` and `": "`, as `publish_records` uses.  A `float` prints as its
literal text. -/
def printJson : Json → List Char
  | .null => "null".data
  | .bool true => "true".data
  | .bool false => "false".data
  | .int n => intPrint n
  | .float lit => lit.data
  | .str s => '"' :: escString s.data ++ ['"']
  | .arr [] => ['[', ']']
  | .arr (x :: xs) => '[' :: (printJson x ++ printItemsRest xs) ++ [']']
  | .obj [] => ['\x7b', '\x7d']
  | .obj (p :: kvs) => '\x7b' :: (printMember p ++ printMembersRest kvs) ++ ['\x7d']

/-- Remaining array items, each preceded by `", "`. -/
def printItemsRest : List Json → List Char
  | [] => []
  | x :: xs => ',' :: ' ' :: (printJson x ++ printItemsRest xs)

/-- One `"key": value` member. -/
def printMember : String × Json → List Char
  | (k, v) => '"' :: escString k.data ++ ['"', ':', ' '] ++ printJson v

/-- Remaining object members, each preceded by `", "`. -/
def printMembersRest : List (String × Json) → List Char
  | [] => []
  | p :: kvs => ',' :: ' ' :: (printMember p ++ printMembersRest kvs)

end

/-- The published payload text for a record. -/
def dumps (v : Json) : String := String.mk (printJson v)

mutual

/-- Fuel needed by the reader on the printed form of a value: one unit
per value plus one per list element. -/
def nodes : Json → Nat
  | .arr xs => nodesList xs + 1
  | .obj kvs => nodesMembers kvs + 1
  | _ => 1

/-- Fuel needed for the items of an array. -/
def nodesList : List Json → Nat
  | [] => 0
  | x :: xs => nodes x + nodesList xs + 1

/-- Fuel needed for the members of an object. -/
def nodesMembers : List (String × Json) → Nat
  | [] => 0
  | p :: kvs => nodes p.2 + nodesMembers kvs + 1

end

/-- JSON whitespace (what Python's `json` scanner skips). -/
def isJsonWs (c : Char) : Bool := c = ' ' ∨ c = '\t' ∨ c = '\n' ∨ c = '\r'

/-- Skip JSON whitespace. -/
def skipWs (cs : List Char) : List Char := cs.dropWhile isJsonWs

/-- Value of a hexadecimal digit character. -/
def hexVal (c : Char) : Option Nat :=
  if 48 ≤ c.toNat ∧ c.toNat ≤ 57 then some (c.toNat - 48)
  else if 97 ≤ c.toNat ∧ c.toNat ≤ 102 then some (c.toNat - 87)
  else if 65 ≤ c.toNat ∧ c.toNat ≤ 70 then some (c.toNat - 55)
  else none

/-- The character named by a two-character JSON string escape. -/
def escCharInv (c : Char) : Option Char :=
  if c = '"' then some '"'
  else if c = '\\' then some '\\'
  else if c = '/' then some '/'
  else if c = 'b' then some '\x08'
  else if c = 'f' then some '\x0c'
  else if c = 'n' then some '\n'
  else if c = 'r' then some '\r'
  else if c = 't' then some '\t'
  else none

/-- Decode one escape sequence after a backslash: the named character,
or `\uXXXX`; returns the decoded character and how many input characters
the sequence used. -/
def parseEscStep : List Char → Option (Char × Nat)
  | [] => none
  | e :: rest2 =>
    match escCharInv e with
    | some c2 => some (c2, 1)
    | none =>
      if e = 'u' then
        match rest2 with
        | h1 :: h2 :: h3 :: h4 :: _ =>
          match hexVal h1, hexVal h2, hexVal h3, hexVal h4 with
          | some a, some b, some c3, some d =>
            some (Char.ofNat (((a * 16 + b) * 16 + c3) * 16 + d), 5)
          | _, _, _, _ => none
        | _ => none
      else none

/-- Read a JSON string body up to and including the closing quote,
returning the decoded characters and the remaining input.  Unescaped
control characters are an error, as in Python's strict mode.  Every step
consumes input, so any fuel above the input length is enough. -/
def parseStrBody : Nat → List Char → Option (List Char × List Char)
  | 0, _ => none
  | _ + 1, [] => none
  | f + 1, c :: rest =>
    if c = '"' then some ([], rest)
    else if c = '\\' then
      (parseEscStep rest).bind (fun ck =>
        (parseStrBody f (rest.drop ck.2)).map (fun pr => (ck.1 :: pr.1, pr.2)))
    else if c.toNat < 32 then none
    else (parseStrBody f rest).map (fun pr => (c :: pr.1, pr.2))

/-- `parseStrBody` with enough fuel for its input. -/
def parseStr (cs : List Char) : Option (List Char × List Char) :=
  parseStrBody (cs.length + 1) cs

/-- Read the optional exponent group `[eE][-+]?digits`, returning the
consumed characters and the rest; `none` consumes nothing. -/
def parseExpPart : List Char → Option (List Char × List Char)
  | c :: r =>
    if c = 'e' ∨ c = 'E' then
      let sgn : List Char :=
        if r.head? = some '+' then ['+'] else if r.head? = some '-' then ['-'] else []
      let r1 := if r.head? = some '+' ∨ r.head? = some '-' then r.tail else r
      let ds := r1.takeWhile Char.isDigit
      if ds.isEmpty then none
      else some (c :: sgn ++ ds, r1.dropWhile Char.isDigit)
    else none
  | [] => none

/-- The digits, fraction and exponent of a JSON number after the sign
has been split off; `sgn` carries the consumed sign for the literal. -/
def parseNumTail (sgn : List Char) (cs1 : List Char) : Option (Json × List Char) :=
  let ds := if cs1.head? = some '0' then ['0'] else cs1.takeWhile Char.isDigit
  let cs2 := if cs1.head? = some '0' then cs1.tail else cs1.dropWhile Char.isDigit
  if ds.isEmpty then none
  else
    let intRes : Option (Json × List Char) :=
      some (.int (if sgn.isEmpty then (digitsVal ds : Int) else -(digitsVal ds : Int)), cs2)
    if cs2.head? = some '.' then
      let r := cs2.tail
      let fs := r.takeWhile Char.isDigit
      let r2 := r.dropWhile Char.isDigit
      if fs.isEmpty then intRes
      else
        match parseExpPart r2 with
        | none => some (.float (String.mk (sgn ++ ds ++ '.' :: fs)), r2)
        | some (es, r3) => some (.float (String.mk (sgn ++ ds ++ '.' :: fs ++ es)), r3)
    else
      match parseExpPart cs2 with
      | none => intRes
      | some (es, r3) => some (.float (String.mk (sgn ++ ds ++ es)), r3)

/-- Read a JSON number, following the regular expression Python's `json`
scanner uses: `(-?(?:0|[1-9]\d*))(\.\d+)?([eE][-+]?\d+)?`.  An
integer-valued literal gives `Json.int`; one with a fraction or exponent
gives `Json.float` carrying the matched text. -/
def parseNum (cs : List Char) : Option (Json × List Char) :=
  if cs.head? = some '-' then parseNumTail ['-'] cs.tail else parseNumTail [] cs

/-- A well-formed exponent group standing alone: `e`/`E`, an optional
sign, then digits to the end. -/
def expShapeB (r : List Char) : Bool :=
  match r with
  | e :: r1 =>
    (e = 'e' ∨ e = 'E') ∧
      (let r2 := if r1.head? = some '+' ∨ r1.head? = some '-' then r1.tail else r1
       (¬(r2.takeWhile Char.isDigit).isEmpty) ∧ (r2.dropWhile Char.isDigit).isEmpty)
  | [] => false

/-- A finite float literal in the shape Python's `json` emits and its
number expression matches: optional minus, integer digits without a
spurious leading zero, then a fraction and/or an exponent. -/
def floatShapeB (s : String) : Bool :=
  let cs := s.data
  let cs1 := if cs.head? = some '-' then cs.tail else cs
  let ds := cs1.takeWhile Char.isDigit
  let r := cs1.dropWhile Char.isDigit
  (¬ds.isEmpty) ∧ (ds.head? = some '0' → ds.length = 1) ∧
    ((r.head? = some '.' ∧
        (¬(r.tail.takeWhile Char.isDigit).isEmpty) ∧
        ((r.tail.dropWhile Char.isDigit).isEmpty ∨
          expShapeB (r.tail.dropWhile Char.isDigit))) ∨
      expShapeB r)

/-- Strip a literal keyword prefix, returning the rest on a match. -/
def stripPre : List Char → List Char → Option (List Char)
  | [], cs => some cs
  | p :: ps, c :: cs => if c = p then stripPre ps cs else none
  | _ :: _, [] => none

mutual

/-- Fuel-indexed JSON reader, modelling `json.loads` on a value.  The
fuel only bounds nesting plus element count; `jsonLoads` supplies enough
for any input. -/
def parseVal : Nat → List Char → Option (Json × List Char)
  | 0, _ => none
  | f + 1, cs =>
    match skipWs cs with
    | [] => none
    | c :: cs1 =>
      if c = 'n' then (stripPre "ull".data cs1).map (fun r => (Json.null, r))
      else if c = 't' then (stripPre "rue".data cs1).map (fun r => (Json.bool true, r))
      else if c = 'f' then (stripPre "alse".data cs1).map (fun r => (Json.bool false, r))
      else if c = 'N' then (stripPre "aN".data cs1).map (fun r => (Json.float "NaN", r))
      else if c = 'I' then
        (stripPre "nfinity".data cs1).map (fun r => (Json.float "Infinity", r))
      else if c = '"' then
        (parseStr cs1).map (fun pr => (Json.str (String.mk pr.1), pr.2))
      else if c = '[' then
        let r1 := skipWs cs1
        if r1.head? = some ']' then some (.arr [], r1.tail)
        else parseItems f cs1 []
      else if c = '\x7b' then
        let r1 := skipWs cs1
        if r1.head? = some '\x7d' then some (.obj [], r1.tail)
        else parseMembers f cs1 []
      else if c = '-' then
        match stripPre "Infinity".data cs1 with
        | some r => some (.float "-Infinity", r)
        | none => parseNum (c :: cs1)
      else parseNum (c :: cs1)

/-- Read the items of a non-empty array after the opening bracket. -/
def parseItems : Nat → List Char → List Json → Option (Json × List Char)
  | 0, _, _ => none
  | f + 1, cs, acc =>
    match parseVal f cs with
    | none => none
    | some (v, r) =>
      let r1 := skipWs r
      if r1.head? = some ',' then parseItems f r1.tail (acc ++ [v])
      else if r1.head? = some ']' then some (.arr (acc ++ [v]), r1.tail)
      else none

/-- Read the members of a non-empty object after the opening brace.
Duplicate keys behave as in a Python dict: first position, last value. -/
def parseMembers : Nat → List Char → List (String × Json) → Option (Json × List Char)
  | 0, _, _ => none
  | f + 1, cs, acc =>
    let c0 := skipWs cs
    if c0.head? = some '"' then
      match parseStr c0.tail with
      | none => none
      | some (ks, r) =>
        let r1 := skipWs r
        if r1.head? = some ':' then
          match parseVal f r1.tail with
          | none => none
          | some (v, r3) =>
            let r4 := skipWs r3
            if r4.head? = some ',' then
              parseMembers f r4.tail (pyDictInsert acc (String.mk ks) v)
            else if r4.head? = some '\x7d' then
              some (.obj (pyDictInsert acc (String.mk ks) v), r4.tail)
            else none
        else none
    else none

end

/-- `json.loads`: read one value and require only whitespace to follow. -/
def jsonLoads (s : String) : Option Json :=
  match parseVal (s.length + 1) s.data with
  | some (v, rest) => if (skipWs rest).isEmpty then some v else none
  | none => none

/-- A float literal our model can carry: either a finite literal in the
emitted shape, or one of the three non-finite names Python's `json`
emits and accepts. -/
def floatLitOk (lit : String) : Bool :=
  floatShapeB lit || lit == "Infinity" || lit == "-Infinity" || lit == "NaN"

/-- No key occurs twice, as in any materialised Python dict. -/
def keysNodup : List (String × Json) → Bool
  | [] => true
  | p :: rest => !(rest.any (fun q => q.1 = p.1)) && keysNodup rest

mutual

/-- Well-formed values: float literals are carried faithfully and object
keys are duplicate-free — exactly the values that can reach
`json.dumps` from a real Python dict. -/
def wfJson : Json → Bool
  | .float lit => floatLitOk lit
  | .arr xs => wfList xs
  | .obj kvs => keysNodup kvs && wfMembers kvs
  | _ => true

/-- All array elements well formed. -/
def wfList : List Json → Bool
  | [] => true
  | x :: xs => wfJson x && wfList xs

/-- All member values well formed. -/
def wfMembers : List (String × Json) → Bool
  | [] => true
  | p :: kvs => wfJson p.2 && wfMembers kvs

end

/-- UTF-8 encoding of one character, as a list of byte values. -/
def utf8Bytes (c : Char) : List Nat :=
  let n := c.toNat
  if n < 128 then [n]
  else if n < 2048 then [192 + n / 64, 128 + n % 64]
  else if n < 65536 then [224 + n / 4096, 128 + (n / 64) % 64, 128 + n % 64]
  else [240 + n / 262144, 128 + (n / 4096) % 64, 128 + (n / 64) % 64, 128 + n % 64]

/-- UTF-8 encoding of a character list. -/
def utf8List : List Char → List Nat
  | [] => []
  | c :: r => utf8Bytes c ++ utf8List r

/-- Octal digit byte. -/
def isOctalByte (b : Nat) : Bool := 48 ≤ b ∧ b ≤ 55

/-- Hex value of a byte holding an ASCII hex digit. -/
def hexValByte (b : Nat) : Option Nat := hexVal (Char.ofNat b)

/-- An octal escape reads up to two further octal digits: the value and
how many extra bytes were consumed. -/
def ueOctalVal (d1 : Nat) (r : List Nat) : Nat × Nat :=
  match r with
  | c2 :: c3 :: _ =>
    if isOctalByte c2 then
      if isOctalByte c3 then (d1 * 64 + (c2 - 48) * 8 + (c3 - 48), 2)
      else (d1 * 8 + (c2 - 48), 1)
    else (d1, 0)
  | [c2] => if isOctalByte c2 then (d1 * 8 + (c2 - 48), 1) else (d1, 0)
  | [] => (d1, 0)

/-- `bytes.decode("unicode_escape")`: interpret backslash escapes in a
byte string; other bytes decode as Latin-1.  `none` models the
`UnicodeDecodeError` raised on a trailing backslash, a malformed
`\x`/`\u`/`\U` or a `\N` escape.  Every step consumes input, so any
fuel above the input length is enough. -/
def ueBytes : Nat → List Nat → Option (List Char)
  | 0, _ => none
  | _ + 1, [] => some []
  | f + 1, 92 :: rest =>
    match rest with
    | [] => none
    | b :: r =>
      if b = 110 then (ueBytes f r).map (fun l => '\n' :: l)
      else if b = 116 then (ueBytes f r).map (fun l => '\t' :: l)
      else if b = 114 then (ueBytes f r).map (fun l => '\r' :: l)
      else if b = 98 then (ueBytes f r).map (fun l => '\x08' :: l)
      else if b = 102 then (ueBytes f r).map (fun l => '\x0c' :: l)
      else if b = 118 then (ueBytes f r).map (fun l => '\x0b' :: l)
      else if b = 97 then (ueBytes f r).map (fun l => '\x07' :: l)
      else if b = 39 then (ueBytes f r).map (fun l => '\'' :: l)
      else if b = 34 then (ueBytes f r).map (fun l => '"' :: l)
      else if b = 92 then (ueBytes f r).map (fun l => '\\' :: l)
      else if b = 10 then ueBytes f r
      else if isOctalByte b then
        let oc := ueOctalVal (b - 48) r
        (ueBytes f (r.drop oc.2)).map (fun l => Char.ofNat oc.1 :: l)
      else if b = 120 then
        match r with
        | h1 :: h2 :: r2 =>
          match hexValByte h1, hexValByte h2 with
          | some a, some b2 => (ueBytes f r2).map (fun l => Char.ofNat (a * 16 + b2) :: l)
          | _, _ => none
        | _ => none
      else if b = 117 then
        match r with
        | h1 :: h2 :: h3 :: h4 :: r2 =>
          match hexValByte h1, hexValByte h2, hexValByte h3, hexValByte h4 with
          | some a, some b2, some c, some d =>
            (ueBytes f r2).map (fun l =>
              Char.ofNat (((a * 16 + b2) * 16 + c) * 16 + d) :: l)
          | _, _, _, _ => none
        | _ => none
      else if b = 85 then
        match r with
        | h1 :: h2 :: h3 :: h4 :: h5 :: h6 :: h7 :: h8 :: r2 =>
          match hexValByte h1, hexValByte h2, hexValByte h3, hexValByte h4,
              hexValByte h5, hexValByte h6, hexValByte h7, hexValByte h8 with
          | some a1, some a2, some a3, some a4, some a5, some a6, some a7, some a8 =>
            let n := ((((((a1 * 16 + a2) * 16 + a3) * 16 + a4) * 16 + a5) * 16 + a6) * 16
              + a7) * 16 + a8
            if n < 1114112 then (ueBytes f r2).map (fun l => Char.ofNat n :: l) else none
          | _, _, _, _, _, _, _, _ => none
        | _ => none
      else if b = 78 then none
      else (ueBytes f r).map (fun l => '\\' :: Char.ofNat b :: l)
  | f + 1, b :: rest => (ueBytes f rest).map (fun l => Char.ofNat b :: l)

/-- `payload_text.encode("utf-8").decode("unicode_escape")`, the second
strategy of `try_parse_json_payload`. -/
def pyUnicodeEscape (s : String) : Option String :=
  (ueBytes ((utf8List s.data).length + 1) (utf8List s.data)).map String.mk

/-- Leftmost, non-overlapping replacement of `\"` by `"`, as
`payload_text.replace("\\\"", "\"")` does. -/
def unescQ : List Char → List Char
  | '\\' :: '"' :: r => '"' :: unescQ r
  | c :: r => c :: unescQ r
  | [] => []

/-- Leftmost, non-overlapping replacement of `\\` by `\`. -/
def unescB : List Char → List Char
  | '\\' :: '\\' :: r => '\\' :: unescB r
  | c :: r => c :: unescB r
  | [] => []

/-- The third strategy's cleanup:
`payload_text.replace("\\\"", "\"").replace("\\\\", "\\")`. -/
def strip3 (t : String) : String :=
  String.mk (unescB (unescQ t.data))

/-- The subscriber's layered payload reader (`try_parse_json_payload`):
direct `json.loads`; on failure un-escape backslash sequences and retry;
on failure strip escaped quotes/backslashes and retry; `none` models the
final `ValueError`. -/
def try_parse_json_payload (t : String) : Option Json :=
  match jsonLoads t with
  | some v => some v
  | none =>
    match (pyUnicodeEscape t).bind jsonLoads with
    | some v => some v
    | none => jsonLoads (strip3 t)

/-- Apply one layer of backslash escaping to a payload: every quote
becomes `\"` and every backslash `\\`.  This is what a once-escaped JSON
payload looks like on the wire. -/
def onceEscapeChars : List Char → List Char
  | [] => []
  | c :: r =>
    (if c = '"' then ['\\', '"'] else if c = '\\' then ['\\', '\\'] else [c]) ++
      onceEscapeChars r

/-- String form of `onceEscapeChars`. -/
def onceEscape (s : String) : String := String.mk (onceEscapeChars s.data)

/-- Python whitespace stripped by `str.strip()` (ASCII range). -/
def isPyWs (c : Char) : Bool :=
  c = ' ' ∨ c = '\t' ∨ c = '\n' ∨ c = '\r' ∨ c = '\x0b' ∨ c = '\x0c'

/-- `s.strip()` for ASCII whitespace. -/
def pyStrip (s : String) : String :=
  String.mk (((s.data.dropWhile isPyWs).reverse.dropWhile isPyWs).reverse)

/-- `s.lower()` on ASCII letters. -/
def lowerAscii (s : String) : String := String.mk (s.data.map Char.toLower)

/-- Consume a maximal digit group in which every underscore sits between
two digits, the tail after the first digit. -/
def dgroupAux : List Char → List Char
  | '_' :: d :: r => if d.isDigit then dgroupAux r else '_' :: d :: r
  | d :: r => if d.isDigit then dgroupAux r else d :: r
  | [] => []

/-- Consume a digit group (at least one digit; underscores only between
digits), returning the rest, or `none` if no leading digit. -/
def dgroup : List Char → Option (List Char)
  | d :: r => if d.isDigit then some (dgroupAux r) else none
  | [] => none

/-- Whole-string digit-and-underscore value: the digit grammar of
Python's `int()` after the optional sign. -/
def digitsU : List Char → Option Nat
  | d :: r => if d.isDigit then digitsUAux (d.toNat - 48) r else none
  | [] => none
where
  digitsUAux (acc : Nat) : List Char → Option Nat
    | [] => some acc
    | '_' :: d :: r => if d.isDigit then digitsUAux (acc * 10 + (d.toNat - 48)) r else none
    | d :: r => if d.isDigit then digitsUAux (acc * 10 + (d.toNat - 48)) r else none

/-- `int(s)` on an already-stripped ASCII string: optional sign, then
decimal digits with underscores between digits; `none` models the
`ValueError`. -/
def pyIntParse (s : String) : Option Int :=
  match s.data with
  | '+' :: r => (digitsU r).map Int.ofNat
  | '-' :: r => (digitsU r).map (fun n => -(n : Int))
  | cs => (digitsU cs).map Int.ofNat

/-- The mantissa of a Python float literal: `digits`, `digits.`,
`digits.digits` or `.digits`, with underscore groups; returns the rest. -/
def dmantissa : List Char → Option (List Char)
  | '.' :: r => dgroup r
  | cs =>
    match dgroup cs with
    | none => none
    | some rest =>
      match rest with
      | '.' :: r2 =>
        match dgroup r2 with
        | some rest2 => some rest2
        | none => some r2
      | _ => some rest

/-- The exponent tail after `e`/`E`: optional sign then a digit group
consuming everything. -/
def expOk (r : List Char) : Bool :=
  let r1 := match r with
    | c :: r2 => if c = '+' ∨ c = '-' then r2 else c :: r2
    | [] => []
  match dgroup r1 with
  | some [] => true
  | _ => false

/-- `float(s)` succeeds on an already-stripped ASCII string: optional
sign, then `inf`/`infinity`/`nan` (any case) or a decimal mantissa with
optional exponent. -/
def pyFloatOk (s : String) : Bool :=
  let cs := match s.data with
    | '+' :: r => r
    | '-' :: r => r
    | cs => cs
  let low := cs.map Char.toLower
  if low = "inf".data ∨ low = "infinity".data ∨ low = "nan".data then true
  else
    match dmantissa cs with
    | none => false
    | some rest =>
      match rest with
      | [] => true
      | e :: r => (e = 'e' ∨ e = 'E') ∧ expOk r

/-- The truthy vocabulary of `auto_convert_record`. -/
def truthyVocab : List String := ["true", "t", "yes", "y", "1", "on"]

/-- The falsy vocabulary of `auto_convert_record`. -/
def falsyVocab : List String := ["false", "f", "no", "n", "0", "off"]

/-- The trimmed string looks like a JSON object or array:
`(s.startswith("\x7b") and s.endswith("\x7d")) or (s.startswith("[") and s.endswith("]"))`. -/
def jwrapped (s : String) : Bool :=
  (s.data.head? = some '\x7b' ∧ s.data.getLast? = some '\x7d') ∨
    (s.data.head? = some '[' ∧ s.data.getLast? = some ']')

/-- One field of `auto_convert_record` (publisher.py lines 43-78): on a
string value, strip it, then try in order `int` (non-empty, no dot),
`float`, the boolean vocabularies, a JSON object/array parse when
bracket-wrapped, and finally keep the trimmed string.  Non-strings pass
through.  A converted float is carried as its literal text. -/
def auto_convert_value : Json → Json
  | .str v =>
    let s := pyStrip v
    match (if s ≠ "" ∧ ¬(s.data.contains '.') then pyIntParse s else none) with
    | some n => .int n
    | none =>
      if s ≠ "" ∧ pyFloatOk s then .float s
      else if lowerAscii s ∈ truthyVocab then .bool true
      else if lowerAscii s ∈ falsyVocab then .bool false
      else if jwrapped s then
        match jsonLoads s with
        | some j => j
        | none => .str s
      else .str s
  | v => v

/-- `auto_convert_record`: convert every field of a record.  A Python
dict has unique keys, so the `out[k] = ...` loop is a per-entry map. -/
def auto_convert_record (rec : List (String × Json)) : List (String × Json) :=
  rec.map (fun kv => (kv.1, auto_convert_value kv.2))

/-- The claim's wording of the coercion cascade, written from the spec
sentence rather than from the code, for comparison with
`auto_convert_value`. -/
def coerce_spec : Json → Json
  | .str v =>
    let s := pyStrip v
    if s ≠ "" ∧ ¬(s.data.contains '.') ∧ (pyIntParse s).isSome then .int ((pyIntParse s).getD 0)
    else if pyFloatOk s then .float s
    else if lowerAscii s ∈ truthyVocab then .bool true
    else if lowerAscii s ∈ falsyVocab then .bool false
    else if jwrapped s ∧ (jsonLoads s).isSome then (jsonLoads s).getD (.str s)
    else .str s
  | v => v

/-- A publish call observed on the wire: topic, payload text, QoS. -/
structure PubEvent where
  topic : String
  payload : String
  qos : Nat
  deriving DecidableEq

/-- The publish calls `publish_records` makes: each record serialised
with `json.dumps(rec, ensure_ascii=False)` and published once, in order,
to the data topic.  (The pacing sleep and the time-based send
confirmation count are real-time behaviour outside the model.) -/
def publish_records_events (topic : String) (records : List Json) (qos : Nat) :
    List PubEvent :=
  records.map (fun r => ⟨topic, dumps r, qos⟩)

/-- `f"{topic}/status"`. -/
def status_topic (topic : String) : String := topic ++ "/status"

/-- `f"{topic}/heartbeat"`. -/
def heartbeat_topic (topic : String) : String := topic ++ "/heartbeat"

/-- Publisher state: the set of client identifiers already served
(`KNOWN_SUBSCRIBERS`), one entry per distinct identifier. -/
structure PubState where
  known : List String

/-- `monitor_with_heartbeat.on_message_handler` (publisher.py lines
200-215): on a status-topic message, decode and strip the payload; under
the lock, an unseen identifier is added and the whole record set is
published, a known one is skipped; other topics are ignored.  The
handler runs as one atomic step here, as the critical section does. -/
def pub_on_message (topic : String) (records : List Json) (qos : Nat)
    (st : PubState) (msgTopic payload : String) : PubState × List PubEvent :=
  if msgTopic = status_topic topic then
    let subscriberId := pyStrip payload
    if subscriberId ∈ st.known then (st, [])
    else ({ known := subscriberId :: st.known }, publish_records_events topic records qos)
  else (st, [])

/-- Run the status handler over a sequence of status-topic payloads,
collecting each message's batch of publishes. -/
def status_run (topic : String) (records : List Json) (qos : Nat)
    (st : PubState) : List String → PubState × List (List PubEvent)
  | [] => (st, [])
  | p :: ps =>
    let step := pub_on_message topic records qos st (status_topic topic) p
    let rest := status_run topic records qos step.1 ps
    (rest.1, step.2 :: rest.2)

/-- How many messages of the sequence trigger a full redelivery for
identifier `i`: the handler took its new-subscriber branch on a payload
stripping to `i`. -/
def status_redeliveries (topic : String) (records : List Json) (qos : Nat)
    (st : PubState) (i : String) : List String → Nat
  | [] => 0
  | p :: ps =>
    (if pyStrip p = i ∧ pyStrip p ∉ st.known then 1 else 0) +
      status_redeliveries topic records qos
        (pub_on_message topic records qos st (status_topic topic) p).1 i ps

/-- `load_json` after `json.load` (publisher.py lines 33-38): a
top-level object is wrapped in a one-element list, anything else is
returned as loaded. -/
def load_json (data : Json) : Json :=
  match data with
  | .obj kvs => .arr [.obj kvs]
  | d => d

/-- `load_csv` via `csv.DictReader`, modelled for unquoted CSV text:
split into non-empty lines, split each on commas, and zip the header
with each data row; every field is a string. -/
def load_csv (content : String) : List (List (String × Json)) :=
  let rows := (content.data.splitOn '\n').filter (fun l => l ≠ [])
  match rows with
  | [] => []
  | header :: dataRows =>
    let hs := (header.splitOn ',').map String.mk
    dataRows.map (fun r =>
      hs.zip ((r.splitOn ',').map (fun f => Json.str (String.mk f))))

/-- The records main prepares from a CSV source:
`[auto_convert_record(r) for r in load_csv(path)]`. -/
def main_csv_records (content : String) : List Json :=
  (load_csv content).map (fun r => .obj (auto_convert_record r))

/-- `MAX_CONNECT_RETRIES` (publisher.py line 298). -/
def MAX_CONNECT_RETRIES : Nat := 12

/-- `CONNECT_RETRY_DELAY` in seconds (publisher.py line 299). -/
def CONNECT_RETRY_DELAY : ℚ := 1

/-- One observable step of the connect-retry loop. -/
inductive ConnEvent where
  | attempt (n : Nat)
  | sleep (seconds : ℚ)
  deriving DecidableEq

/-- The connect-retry loop (publisher.py lines 301-310) from attempt `n`
with `rem` attempts left: stop on the first success; re-raise on the
final failure; otherwise sleep `CONNECT_RETRY_DELAY` and try again.
Returns the event trace and whether a connection was made. -/
def connect_loop (ok : Nat → Bool) : Nat → Nat → List ConnEvent × Bool
  | _, 0 => ([], false)
  | n, rem + 1 =>
    if ok n then ([.attempt n], true)
    else if rem = 0 then ([.attempt n], false)
    else
      let t := connect_loop ok (n + 1) rem
      (.attempt n :: .sleep CONNECT_RETRY_DELAY :: t.1, t.2)

/-- The whole retry phase: attempts numbered from 1 up to
`MAX_CONNECT_RETRIES`. -/
def connect_with_retry (ok : Nat → Bool) : List ConnEvent × Bool :=
  connect_loop ok 1 MAX_CONNECT_RETRIES

/-- The attempt numbers of a trace. -/
def attemptsOf : List ConnEvent → List Nat
  | [] => []
  | .attempt n :: r => n :: attemptsOf r
  | .sleep _ :: r => attemptsOf r

/-- The sleeps of a trace. -/
def sleepsOf : List ConnEvent → List ℚ
  | [] => []
  | .attempt _ :: r => sleepsOf r
  | .sleep s :: r => s :: sleepsOf r

/-- How the publisher process ends (or keeps running). -/
inductive MainOutcome where
  | exitCode (n : Nat)
  | monitoring
  deriving DecidableEq

/-- The control skeleton of publisher `main` (lines 237-319): exit 1 on
a missing `source.path`; exit 1 on an unsupported `source.type`; return
cleanly (process exit 0) when no records were loaded; exit 1 when the
connect retries exhaust (the re-raised exception is uncaught); otherwise
enter the monitoring loop. -/
def publisher_main_outcome (pathPresent : Bool) (srcType : String)
    (recordCount : Nat) (ok : Nat → Bool) : MainOutcome :=
  if ¬pathPresent then .exitCode 1
  else if ¬(lowerAscii srcType = "csv" ∨ lowerAscii srcType = "json") then .exitCode 1
  else if recordCount = 0 then .exitCode 0
  else if (connect_with_retry ok).2 then .monitoring
  else .exitCode 1

/-- The subscriber's data topic (subscriber.py line 27). -/
def TOPIC : String := "test/topic"

/-- The subscriber's status topic. -/
def STATUS_TOPIC : String := TOPIC ++ "/status"

/-- The subscriber's heartbeat topic. -/
def HEARTBEAT_TOPIC : String := TOPIC ++ "/heartbeat"

/-- What a log file holds: bytes that parse as a JSON value, or bytes
that do not. -/
inductive FileData where
  | jval (v : Json)
  | raw (s : String)

/-- The JSON log file and its backup slot (`messages.json`,
`messages.json.bak`). -/
structure JsonLogFS where
  main : Option FileData
  bak : Option FileData

/-- `append_json_record` (subscriber.py lines 37-63): create `[record]`
if the file is missing; append to a decoded array; otherwise (non-array
value or parse failure) rename the file to `<name>.bak` and start a
fresh array holding only the record. -/
def append_json_record (record : Json) (fs : JsonLogFS) : JsonLogFS :=
  match fs.main with
  | none => { fs with main := some (.jval (.arr [record])) }
  | some (.jval (.arr l)) => { fs with main := some (.jval (.arr (l ++ [record]))) }
  | some fd => { main := some (.jval (.arr [record])), bak := some fd }

/-- Subscriber-side state: the text transcript as a list of lines and
the JSON array log file. -/
structure SubState where
  textLog : List String
  jsonLog : JsonLogFS

/-- The record parsed from a data payload (subscriber.py lines 156-163):
the layered parse result, non-objects wrapped as `value`, total failure
wrapped as `raw`. -/
def parse_payload_record (message : String) : List (String × Json) :=
  match try_parse_json_payload message with
  | some (.obj kvs) => kvs
  | some parsed => [("value", parsed)]
  | none => [("raw", .str message)]

/-- The metadata dict `record_meta` (subscriber.py lines 166-170). -/
def record_meta (ts topic clientId : String) : List (String × Json) :=
  [("_received_at", .str ts), ("_topic", .str topic), ("_client_id", .str clientId)]

/-- The object appended to the JSON log for a data message:
`{**record_meta, **record}`. -/
def final_record (ts topic clientId message : String) : List (String × Json) :=
  pyMerge (record_meta ts topic clientId) (parse_payload_record message)

/-- The subscriber's `on_message` (subscriber.py lines 124-177): a
heartbeat `"ready"` re-announces the client id on the status topic at
QoS 1; a data-topic message appends a transcript line and the enriched
record; every other topic does nothing. -/
def sub_on_message (clientId ts : String) (st : SubState)
    (topic payload : String) : SubState × List PubEvent :=
  if topic = HEARTBEAT_TOPIC then
    (st, if payload = "ready" then [⟨STATUS_TOPIC, clientId, 1⟩] else [])
  else if topic = TOPIC then
    let entry := "[" ++ ts ++ "] Topic: " ++ topic ++ " | Message: " ++ payload ++ "\n"
    ({ textLog := st.textLog ++ [entry],
       jsonLog := append_json_record (.obj (final_record ts topic clientId payload)) st.jsonLog },
     [])
  else (st, [])

/-- The characters that may legitimately follow a printed value inside
a printed composite: a separator, a closing bracket, or nothing. -/
def restDelimB : List Char → Bool
  | [] => true
  | c :: _ => c = ',' ∨ c = ']' ∨ c = '\x7d'

/-- First-of-two option choice, the value a key ends up with. -/
def ofirst (x y : Option Json) : Option Json :=
  match x with
  | some v => some v
  | none => y

/-- Every character is ASCII. -/
def allAscii (cs : List Char) : Bool := cs.all (fun c => c.toNat < 128)

/-! ### Helper lemmas: decimal digits -/

theorem takeWhile_all_append (P : Char → Bool) : ∀ (ds t : List Char),
    (∀ c ∈ ds, P c = true) → (ds ++ t).takeWhile P = ds ++ t.takeWhile P := by
  intro ds
  induction ds with
  | nil => simp
  | cons d ds ih =>
    intro t h
    simp only [List.cons_append]
    rw [List.takeWhile_cons_of_pos (h d (by simp)), ih t (fun c hc => h c (by simp [hc]))]

theorem dropWhile_all_append (P : Char → Bool) : ∀ (ds t : List Char),
    (∀ c ∈ ds, P c = true) → (ds ++ t).dropWhile P = t.dropWhile P := by
  intro ds
  induction ds with
  | nil => simp
  | cons d ds ih =>
    intro t h
    simp only [List.cons_append]
    rw [List.dropWhile_cons_of_pos (h d (by simp)), ih t (fun c hc => h c (by simp [hc]))]

theorem head?_append_of_ne_nil (l t : List Char) (h : l ≠ []) :
    (l ++ t).head? = l.head? := by
  cases l with
  | nil => exact absurd rfl h
  | cons a l => simp

theorem natPrintAux_fuel (n : Nat) : ∀ fuel acc, n < fuel →
    natPrintAux fuel n acc = natPrint n ++ acc := by
  induction n using Nat.strong_induction_on with
  | _ n ih =>
    intro fuel acc hf
    rw [natPrint]
    match fuel, hf with
    | f + 1, _ =>
      rw [natPrintAux, natPrintAux]
      by_cases h : n < 10
      · simp [h]
      · simp only [h, if_false]
        have hlt : n / 10 < n := Nat.div_lt_self (by omega) (by omega)
        rw [ih _ hlt f _ (by omega), ih _ hlt n _ hlt]
        simp

/-- One-step unfolding of `natPrint`. -/
theorem natPrint_unfold (n : Nat) :
    natPrint n = if n < 10 then [digitChar n]
      else natPrint (n / 10) ++ [digitChar (n % 10)] := by
  rw [natPrint, natPrintAux]
  by_cases h : n < 10
  · simp [h]
  · simp only [h, if_false]
    have hlt : n / 10 < n := Nat.div_lt_self (by omega) (by omega)
    rw [natPrintAux_fuel _ _ _ hlt]

theorem natPrint_ne_nil (n : Nat) : natPrint n ≠ [] := by
  rw [natPrint_unfold]
  by_cases h : n < 10 <;> simp [h]

theorem digitChar_toNat (n : Nat) (h : n < 10) : (digitChar n).toNat = 48 + n := by
  interval_cases n <;> rfl

theorem digitChar_isDigit (n : Nat) (h : n < 10) : (digitChar n).isDigit = true := by
  interval_cases n <;> decide

theorem natPrint_digits (n : Nat) : ∀ c ∈ natPrint n, c.isDigit = true := by
  induction n using Nat.strong_induction_on with
  | _ n ih =>
    intro c hc
    rw [natPrint_unfold] at hc
    by_cases h : n < 10
    · simp [h] at hc
      subst hc
      exact digitChar_isDigit n h
    · simp only [h, if_false] at hc
      have hlt : n / 10 < n := Nat.div_lt_self (by omega) (by omega)
      rcases List.mem_append.mp hc with h1 | h2
      · exact ih _ hlt c h1
      · simp at h2
        subst h2
        exact digitChar_isDigit _ (Nat.mod_lt _ (by omega))

theorem natPrint_head_ne_zero (n : Nat) (hn : n ≠ 0) :
    (natPrint n).head? ≠ some '0' := by
  induction n using Nat.strong_induction_on with
  | _ n ih =>
    rw [natPrint_unfold]
    by_cases h : n < 10
    · simp only [h, if_true]
      intro hc
      simp at hc
      have : (digitChar n).toNat = ('0' : Char).toNat := by rw [hc]
      rw [digitChar_toNat n h] at this
      simp at this
      omega
    · simp only [h, if_false]
      have hlt : n / 10 < n := Nat.div_lt_self (by omega) (by omega)
      have hne : n / 10 ≠ 0 := by
        intro hz
        have := Nat.div_add_mod n 10
        omega
      have := ih _ hlt hne
      cases hh : natPrint (n / 10) with
      | nil => exact absurd hh (natPrint_ne_nil _)
      | cons a l =>
        rw [hh] at this
        simpa using this

theorem digitsVal_append_digit (cs : List Char) (c : Char) :
    digitsVal (cs ++ [c]) = digitsVal cs * 10 + (c.toNat - 48) := by
  simp [digitsVal]

theorem digitsVal_natPrint (n : Nat) : digitsVal (natPrint n) = n := by
  induction n using Nat.strong_induction_on with
  | _ n ih =>
    rw [natPrint_unfold]
    by_cases h : n < 10
    · simp only [h, if_true]
      simp [digitsVal, digitChar_toNat n h]
    · simp only [h, if_false]
      have hlt : n / 10 < n := Nat.div_lt_self (by omega) (by omega)
      rw [digitsVal_append_digit, ih _ hlt, digitChar_toNat _ (Nat.mod_lt _ (by omega))]
      omega

/-! ### Helper lemmas: characters and whitespace -/

theorem hexVal_hexDigitChar (m : Nat) (h : m < 16) : hexVal (hexDigitChar m) = some m := by
  interval_cases m <;> decide

theorem isJsonWs_cases (c : Char) (h : isJsonWs c = true) :
    c = ' ' ∨ c = '\t' ∨ c = '\n' ∨ c = '\r' := by
  simpa [isJsonWs] using h

theorem skipWs_cons (c : Char) (l : List Char) (h : isJsonWs c = false) :
    skipWs (c :: l) = c :: l := by
  simp [skipWs, List.dropWhile, h]

theorem isDigit_not_ws (c : Char) (h : c.isDigit = true) : isJsonWs c = false := by
  cases hw : isJsonWs c
  · rfl
  · rcases isJsonWs_cases c hw with h1 | h1 | h1 | h1 <;>
      (subst h1; exact absurd h (by decide))

/-! ### Helper lemmas: string literal round trip -/

theorem parseStrBody_escape : ∀ (s : List Char) (f : Nat) (rest : List Char),
    (escString s).length < f →
    parseStrBody f (escString s ++ '"' :: rest) = some (s, rest) := by
  intro s
  induction s with
  | nil =>
    intro f rest hf
    cases f with
    | zero => omega
    | succ f1 => simp [escString, parseStrBody]
  | cons c s ih =>
    intro f rest hf
    rw [escString]
    by_cases h1 : c = '"'
    · subst h1
      rw [show escapeChar '"' = ['\\', '"'] from rfl]
      cases f with
      | zero => omega
      | succ f1 =>
        have ihx : parseStrBody f1 (escString s ++ '"' :: rest) = some (s, rest) :=
          ih f1 rest (by simp [escString, escapeChar] at hf; omega)
        simp [parseStrBody, parseEscStep, escCharInv, ihx]
    by_cases h2 : c = '\\'
    · subst h2
      rw [show escapeChar '\\' = ['\\', '\\'] from rfl]
      cases f with
      | zero => omega
      | succ f1 =>
        have ihx : parseStrBody f1 (escString s ++ '"' :: rest) = some (s, rest) :=
          ih f1 rest (by simp [escString, escapeChar] at hf; omega)
        simp [parseStrBody, parseEscStep, escCharInv, ihx]
    by_cases h3 : c = '\n'
    · subst h3
      rw [show escapeChar '\n' = ['\\', 'n'] from rfl]
      cases f with
      | zero => omega
      | succ f1 =>
        have ihx : parseStrBody f1 (escString s ++ '"' :: rest) = some (s, rest) :=
          ih f1 rest (by simp [escString, escapeChar] at hf; omega)
        simp [parseStrBody, parseEscStep, escCharInv, ihx]
    by_cases h4 : c = '\t'
    · subst h4
      rw [show escapeChar '\t' = ['\\', 't'] from rfl]
      cases f with
      | zero => omega
      | succ f1 =>
        have ihx : parseStrBody f1 (escString s ++ '"' :: rest) = some (s, rest) :=
          ih f1 rest (by simp [escString, escapeChar] at hf; omega)
        simp [parseStrBody, parseEscStep, escCharInv, ihx]
    by_cases h5 : c = '\r'
    · subst h5
      rw [show escapeChar '\r' = ['\\', 'r'] from rfl]
      cases f with
      | zero => omega
      | succ f1 =>
        have ihx : parseStrBody f1 (escString s ++ '"' :: rest) = some (s, rest) :=
          ih f1 rest (by simp [escString, escapeChar] at hf; omega)
        simp [parseStrBody, parseEscStep, escCharInv, ihx]
    by_cases h6 : c = '\x08'
    · subst h6
      rw [show escapeChar '\x08' = ['\\', 'b'] from rfl]
      cases f with
      | zero => omega
      | succ f1 =>
        have ihx : parseStrBody f1 (escString s ++ '"' :: rest) = some (s, rest) :=
          ih f1 rest (by simp [escString, escapeChar] at hf; omega)
        simp [parseStrBody, parseEscStep, escCharInv, ihx]
    by_cases h7 : c = '\x0c'
    · subst h7
      rw [show escapeChar '\x0c' = ['\\', 'f'] from rfl]
      cases f with
      | zero => omega
      | succ f1 =>
        have ihx : parseStrBody f1 (escString s ++ '"' :: rest) = some (s, rest) :=
          ih f1 rest (by simp [escString, escapeChar] at hf; omega)
        simp [parseStrBody, parseEscStep, escCharInv, ihx]
    by_cases hctl : c.toNat < 32
    · have hesc : escapeChar c =
          ['\\', 'u', '0', '0', hexDigitChar (c.toNat / 16), hexDigitChar (c.toNat % 16)] := by
        simp [escapeChar, h1, h2, h3, h4, h5, h6, h7, hctl]
      rw [hesc]
      cases f with
      | zero => omega
      | succ f1 =>
        have ihx : parseStrBody f1 (escString s ++ '"' :: rest) = some (s, rest) :=
          ih f1 rest (by simp [escString, hesc] at hf; omega)
        have hd1 : hexVal (hexDigitChar (c.toNat / 16)) = some (c.toNat / 16) :=
          hexVal_hexDigitChar _ (by omega)
        have hd2 : hexVal (hexDigitChar (c.toNat % 16)) = some (c.toNat % 16) :=
          hexVal_hexDigitChar _ (by omega)
        have h0 : hexVal '0' = some 0 := by decide
        simp [parseStrBody, parseEscStep, escCharInv, h0, hd1, hd2, ihx]
        have harith2 : c.toNat / 16 * 16 + c.toNat % 16 = c.toNat := by omega
        rw [harith2, Char.ofNat_toNat]
    · have hesc : escapeChar c = [c] := by
        simp [escapeChar, h1, h2, h3, h4, h5, h6, h7, hctl]
      rw [hesc]
      cases f with
      | zero => omega
      | succ f1 =>
        have ihx : parseStrBody f1 (escString s ++ '"' :: rest) = some (s, rest) :=
          ih f1 rest (by simp [escString, hesc] at hf; omega)
        simp only [List.cons_append, List.nil_append]
        simp [parseStrBody, h1, h2, hctl, ihx]

/-! ### Helper lemmas: numbers -/

theorem restDelim_facts (rest : List Char) (h : restDelimB rest = true) :
    rest.takeWhile Char.isDigit = [] ∧ rest.dropWhile Char.isDigit = rest ∧
    rest.head? ≠ some '.' ∧ parseExpPart rest = none := by
  cases rest with
  | nil => exact ⟨rfl, rfl, by simp, rfl⟩
  | cons c t =>
    have hc : c = ',' ∨ c = ']' ∨ c = '\x7d' := by simpa [restDelimB] using h
    rcases hc with hc | hc | hc <;> subst hc <;>
      exact ⟨List.takeWhile_cons_of_neg (by decide), List.dropWhile_cons_of_neg (by decide),
        by simp, by simp [parseExpPart]⟩

theorem natPrint_isEmpty (m : Nat) : (natPrint m).isEmpty = false := by
  cases h : natPrint m with
  | nil => exact absurd h (natPrint_ne_nil m)
  | cons a l => rfl

theorem natPrint_head_not (m : Nat) (c : Char) (hc : c.isDigit = false) :
    (natPrint m).head? ≠ some c := by
  cases h : natPrint m with
  | nil => simp
  | cons a l =>
    have ha : a.isDigit = true := natPrint_digits m a (by rw [h]; simp)
    simp only [List.head?_cons, ne_eq, Option.some.injEq]
    intro he
    rw [he] at ha
    rw [ha] at hc
    exact absurd hc (by simp)

theorem parseNum_natPrint_core (m : Nat) (rest : List Char) (hrest : restDelimB rest = true) :
    (if ((natPrint m ++ rest).head? = some '0') then (['0'] : List Char)
        else (natPrint m ++ rest).takeWhile Char.isDigit) = natPrint m ∧
    (if ((natPrint m ++ rest).head? = some '0') then (natPrint m ++ rest).tail
        else (natPrint m ++ rest).dropWhile Char.isDigit) = rest := by
  obtain ⟨hTW, hDW, _, _⟩ := restDelim_facts rest hrest
  have hne := natPrint_ne_nil m
  have hh : (natPrint m ++ rest).head? = (natPrint m).head? :=
    head?_append_of_ne_nil _ _ hne
  have hTW2 : (natPrint m ++ rest).takeWhile Char.isDigit = natPrint m := by
    rw [takeWhile_all_append _ _ _ (natPrint_digits m), hTW, List.append_nil]
  have hDW2 : (natPrint m ++ rest).dropWhile Char.isDigit = rest := by
    rw [dropWhile_all_append _ _ _ (natPrint_digits m), hDW]
  by_cases hm : m = 0
  · subst hm
    rw [show natPrint 0 = ['0'] from rfl] at hh hTW2 hDW2 ⊢
    simp only [hh]
    simp [hTW2, hDW2]
  · have h0 : (natPrint m ++ rest).head? ≠ some '0' := by
      rw [hh]; exact natPrint_head_ne_zero m hm
    simp only [hTW2, hDW2]
    refine ⟨?_, ?_⟩ <;> rw [if_neg h0]

theorem parseNumTail_natPrint (sgn : List Char) (m : Nat) (rest : List Char)
    (hrest : restDelimB rest = true) :
    parseNumTail sgn (natPrint m ++ rest) =
      some (.int (if sgn.isEmpty then (m : Int) else -(m : Int)), rest) := by
  obtain ⟨hTW, hDW, hdot, hexp⟩ := restDelim_facts rest hrest
  obtain ⟨hds, hcs2⟩ := parseNum_natPrint_core m rest hrest
  rw [parseNumTail]
  simp only [hds, hcs2, natPrint_isEmpty m, Bool.false_eq_true, if_false, hdot, hexp,
    digitsVal_natPrint]

theorem parseNum_natPrint (m : Nat) (rest : List Char) (hrest : restDelimB rest = true) :
    parseNum (natPrint m ++ rest) = some (.int (m : Int), rest) := by
  have hne := natPrint_ne_nil m
  have hminus : (natPrint m ++ rest).head? ≠ some '-' := by
    rw [head?_append_of_ne_nil _ _ hne]
    exact natPrint_head_not m '-' (by decide)
  rw [parseNum, if_neg hminus, parseNumTail_natPrint [] m rest hrest]
  rfl

theorem intPrint_nonneg (n : Int) (h : 0 ≤ n) : intPrint n = natPrint n.natAbs := by
  rw [intPrint, if_neg (by omega)]

theorem parseNum_intPrint (n : Int) (rest : List Char) (hrest : restDelimB rest = true) :
    parseNum (intPrint n ++ rest) = some (.int n, rest) := by
  by_cases hn : n < 0
  · rw [intPrint, if_pos hn]
    simp only [List.cons_append]
    rw [parseNum,
      if_pos (show ('-' :: (natPrint n.natAbs ++ rest)).head? = some '-' from rfl),
      List.tail_cons, parseNumTail_natPrint ['-'] n.natAbs rest hrest]
    simp
    rw [abs_of_neg hn, neg_neg]
  · rw [intPrint, if_neg hn]
    rw [parseNum_natPrint n.natAbs rest hrest, show ((n.natAbs : Int)) = n from
      Int.natAbs_of_nonneg (by omega)]

theorem expShape_parseExpPart (r rest : List Char) (hr : expShapeB r = true)
    (hrest : restDelimB rest = true) :
    parseExpPart (r ++ rest) = some (r, rest) := by
  obtain ⟨hTWr, hDWr, _, _⟩ := restDelim_facts rest hrest
  cases r with
  | nil => simp [expShapeB] at hr
  | cons e r1 =>
    simp only [expShapeB, decide_eq_true_eq] at hr
    obtain ⟨he, hr2⟩ := hr
    simp only [List.cons_append, parseExpPart, if_pos he]
    by_cases hs : r1.head? = some '+' ∨ r1.head? = some '-'
    · rw [if_pos hs] at hr2
      obtain ⟨htw, hdw⟩ := hr2
      obtain ⟨s0, r1t, rfl⟩ : ∃ s0 r1t, r1 = s0 :: r1t := by
        rcases hs with hs | hs <;>
          (cases r1 with
           | nil => simp at hs
           | cons a b => exact ⟨a, b, rfl⟩)
      simp only [List.tail_cons] at htw hdw
      have hdw' : r1t.dropWhile Char.isDigit = [] := by
        simpa using hdw
      have hall : ∀ c ∈ r1t, c.isDigit = true := fun c hc =>
        List.dropWhile_eq_nil_iff.mp hdw' c hc
      have hne : r1t ≠ [] := by
        intro h0
        rw [h0] at htw
        simp at htw
      have hTW2 : (r1t ++ rest).takeWhile Char.isDigit = r1t := by
        rw [takeWhile_all_append _ _ _ hall, hTWr, List.append_nil]
      have hDW2 : (r1t ++ rest).dropWhile Char.isDigit = rest := by
        rw [dropWhile_all_append _ _ _ hall, hDWr]
      have hie : r1t.isEmpty = false := by
        cases r1t with
        | nil => exact absurd rfl hne
        | cons a b => rfl
      rcases hs with hs | hs
      · have hs0 : s0 = '+' := by simpa using hs
        subst hs0
        simp [hTW2, hDW2, hie]
      · have hs0 : s0 = '-' := by simpa using hs
        subst hs0
        simp [hTW2, hDW2, hie]
    · rw [if_neg hs] at hr2
      obtain ⟨htw, hdw⟩ := hr2
      have hdw' : r1.dropWhile Char.isDigit = [] := by
        simpa using hdw
      have hall : ∀ c ∈ r1, c.isDigit = true := fun c hc =>
        List.dropWhile_eq_nil_iff.mp hdw' c hc
      have hne : r1 ≠ [] := by
        intro h0
        rw [h0] at htw
        simp at htw
      have hTW2 : (r1 ++ rest).takeWhile Char.isDigit = r1 := by
        rw [takeWhile_all_append _ _ _ hall, hTWr, List.append_nil]
      have hDW2 : (r1 ++ rest).dropWhile Char.isDigit = rest := by
        rw [dropWhile_all_append _ _ _ hall, hDWr]
      have hie : r1.isEmpty = false := by
        cases r1 with
        | nil => exact absurd rfl hne
        | cons a b => rfl
      have hh : (r1 ++ rest).head? = r1.head? := head?_append_of_ne_nil _ _ hne
      push_neg at hs
      obtain ⟨hs1, hs2⟩ := hs
      rw [hh]
      simp [hs1, hs2, hTW2, hDW2, hie]

theorem bool_not_true {b : Bool} (h : ¬b = true) : b = false := by
  cases b
  · rfl
  · exact absurd rfl h

theorem dropWhile_head_not (p : Char → Bool) : ∀ (l : List Char) (a : Char) (t : List Char),
    l.dropWhile p = a :: t → p a = false := by
  intro l
  induction l with
  | nil => intro a t h; simp at h
  | cons c l ih =>
    intro a t h
    by_cases pc : p c
    · rw [List.dropWhile_cons_of_pos pc] at h
      exact ih a t h
    · rw [List.dropWhile_cons_of_neg pc] at h
      cases h
      simpa using pc

theorem parseNumTail_floatShape (sgn : List Char) (cs1 rest : List Char)
    (hrest : restDelimB rest = true)
    (hdsne : (cs1.takeWhile Char.isDigit).isEmpty = false)
    (h0 : (cs1.takeWhile Char.isDigit).head? = some '0' →
      (cs1.takeWhile Char.isDigit).length = 1)
    (hfe : (((cs1.dropWhile Char.isDigit).head? = some '.') ∧
        ((cs1.dropWhile Char.isDigit).tail.takeWhile Char.isDigit).isEmpty = false ∧
        ((cs1.dropWhile Char.isDigit).tail.dropWhile Char.isDigit = [] ∨
          expShapeB ((cs1.dropWhile Char.isDigit).tail.dropWhile Char.isDigit) = true)) ∨
      expShapeB (cs1.dropWhile Char.isDigit) = true) :
    parseNumTail sgn (cs1 ++ rest) = some (.float (String.mk (sgn ++ cs1)), rest) := by
  obtain ⟨hTWr, hDWr, hdotr, hexpr⟩ := restDelim_facts rest hrest
  have hsplit : cs1.takeWhile Char.isDigit ++ cs1.dropWhile Char.isDigit = cs1 :=
    List.takeWhile_append_dropWhile Char.isDigit cs1
  set ds := cs1.takeWhile Char.isDigit with hds_def
  set r := cs1.dropWhile Char.isDigit with hr_def
  have hall : ∀ c ∈ ds, c.isDigit = true := fun c hc => List.mem_takeWhile_imp hc
  have hdsnil : ds ≠ [] := by
    intro h
    rw [h] at hdsne
    simp at hdsne
  have hrne : r ≠ [] := by
    rcases hfe with ⟨hdot, _, _⟩ | hexp
    · intro h
      rw [h] at hdot
      simp at hdot
    · intro h
      rw [h] at hexp
      simp [expShapeB] at hexp
  obtain ⟨a, rt, har⟩ : ∃ a rt, r = a :: rt := by
    cases hr : r with
    | nil => exact absurd hr hrne
    | cons x y => exact ⟨x, y, rfl⟩
  have hand : a.isDigit = false := dropWhile_head_not Char.isDigit cs1 a rt (by rw [← hr_def, har])
  have hq : cs1 ++ rest = ds ++ (r ++ rest) := by
    rw [← List.append_assoc, hsplit]
  have hTWq : (r ++ rest).takeWhile Char.isDigit = [] := by
    rw [har, List.cons_append]
    exact List.takeWhile_cons_of_neg (by simp [hand])
  have hDWq : (r ++ rest).dropWhile Char.isDigit = r ++ rest := by
    rw [har, List.cons_append]
    exact List.dropWhile_cons_of_neg (by simp [hand])
  have hTW2 : (cs1 ++ rest).takeWhile Char.isDigit = ds := by
    rw [hq, takeWhile_all_append _ _ _ hall, hTWq, List.append_nil]
  have hDW2 : (cs1 ++ rest).dropWhile Char.isDigit = r ++ rest := by
    rw [hq, dropWhile_all_append _ _ _ hall, hDWq]
  have hh2 : cs1.head? = ds.head? := by
    conv_lhs => rw [← hsplit]
    exact head?_append_of_ne_nil _ _ hdsnil
  have hcs1ne : cs1 ≠ [] := by
    intro h
    rw [h] at hds_def
    exact hdsnil (by rw [hds_def]; rfl)
  have hh : (cs1 ++ rest).head? = ds.head? := by
    rw [head?_append_of_ne_nil _ _ hcs1ne, hh2]
  have hDS : (if (cs1 ++ rest).head? = some '0' then ['0']
      else (cs1 ++ rest).takeWhile Char.isDigit) = ds := by
    by_cases hz : ds.head? = some '0'
    · have hlen := h0 hz
      have hds0 : ds = ['0'] := by
        cases hd : ds with
        | nil => exact absurd hd hdsnil
        | cons x y =>
          rw [hd] at hz hlen
          simp at hz hlen
          rw [hz, hlen]
      rw [if_pos (by rw [hh, hds0]; rfl), hds0]
    · rw [if_neg (by rw [hh]; exact hz), hTW2]
  have hCS2 : (if (cs1 ++ rest).head? = some '0' then (cs1 ++ rest).tail
      else (cs1 ++ rest).dropWhile Char.isDigit) = r ++ rest := by
    by_cases hz : ds.head? = some '0'
    · have hlen := h0 hz
      have hds0 : ds = ['0'] := by
        cases hd : ds with
        | nil => exact absurd hd hdsnil
        | cons x y =>
          rw [hd] at hz hlen
          simp at hz hlen
          rw [hz, hlen]
      have hcs1 : cs1 = '0' :: r := by
        rw [← hsplit, hds0]
        rfl
      rw [if_pos (by rw [hh, hds0]; rfl), hcs1]
      rfl
    · rw [if_neg (by rw [hh]; exact hz), hDW2]
  rw [parseNumTail]
  simp only [hDS, hCS2, hdsne, Bool.false_eq_true, if_false]
  rcases hfe with ⟨hdot, hfs, hrest2⟩ | hexp
  · -- fraction present
    have haq : a = '.' := by
      rw [har] at hdot
      simpa using hdot
    subst haq
    have hdothead : (r ++ rest).head? = some '.' := by
      rw [har]
      rfl
    rw [if_pos hdothead]
    have htail : (r ++ rest).tail = rt ++ rest := by
      rw [har]
      rfl
    rw [htail]
    rw [har] at hfs hrest2
    simp only [List.tail_cons] at hfs hrest2
    set fs0 := rt.takeWhile Char.isDigit with hfs0_def
    set r2 := rt.dropWhile Char.isDigit with hr2_def
    have hallf : ∀ c ∈ fs0, c.isDigit = true := fun c hc => List.mem_takeWhile_imp hc
    have hsplitf : fs0 ++ r2 = rt := List.takeWhile_append_dropWhile Char.isDigit rt
    have hTWq2 : (r2 ++ rest).takeWhile Char.isDigit = [] := by
      cases hr2 : r2 with
      | nil => simpa using hTWr
      | cons b bt =>
        have hb : b.isDigit = false := dropWhile_head_not Char.isDigit rt b bt (by rw [← hr2_def, hr2])
        rw [List.cons_append]
        exact List.takeWhile_cons_of_neg (by simp [hb])
    have hDWq2 : (r2 ++ rest).dropWhile Char.isDigit = r2 ++ rest := by
      cases hr2 : r2 with
      | nil => simpa using hDWr
      | cons b bt =>
        have hb : b.isDigit = false := dropWhile_head_not Char.isDigit rt b bt (by rw [← hr2_def, hr2])
        rw [List.cons_append]
        exact List.dropWhile_cons_of_neg (by simp [hb])
    have hqf : rt ++ rest = fs0 ++ (r2 ++ rest) := by
      rw [← List.append_assoc, hsplitf]
    have hFS : (rt ++ rest).takeWhile Char.isDigit = fs0 := by
      rw [hqf, takeWhile_all_append _ _ _ hallf, hTWq2, List.append_nil]
    have hR2 : (rt ++ rest).dropWhile Char.isDigit = r2 ++ rest := by
      rw [hqf, dropWhile_all_append _ _ _ hallf, hDWq2]
    rw [hFS, hR2]
    simp only [hfs, Bool.false_eq_true, if_false]
    rcases hrest2 with hnil | hsh2
    · rw [hnil]
      simp only [List.nil_append, hexpr]
      have hcs1 : cs1 = ds ++ '.' :: fs0 := by
        rw [← hsplit, har, ← hsplitf, hnil, List.append_nil]
      rw [hcs1]
      simp
    · rw [expShape_parseExpPart r2 rest hsh2 hrest]
      have hcs1 : cs1 = ds ++ '.' :: (fs0 ++ r2) := by
        rw [← hsplit, har, ← hsplitf]
      rw [hcs1]
      simp
  · -- exponent directly
    have hane : ¬((r ++ rest).head? = some '.') := by
      rw [har]
      have : a = 'e' ∨ a = 'E' := by
        rw [har] at hexp
        simp only [expShapeB, decide_eq_true_eq] at hexp
        exact hexp.1
      rcases this with h | h <;> (subst h; simp)
    rw [if_neg hane]
    rw [expShape_parseExpPart r rest hexp hrest]
    have hcs1 : cs1 = ds ++ r := hsplit.symm
    rw [hcs1]
    simp

theorem floatShape_parseNum (s : String) (rest : List Char) (hsh : floatShapeB s = true)
    (hrest : restDelimB rest = true) :
    parseNum (s.data ++ rest) = some (.float s, rest) := by
  simp only [floatShapeB, decide_eq_true_eq] at hsh
  by_cases hsg : s.data.head? = some '-'
  · rw [if_pos hsg] at hsh
    obtain ⟨t, ht⟩ : ∃ t, s.data = '-' :: t := by
      cases hcs : s.data with
      | nil => rw [hcs] at hsg; simp at hsg
      | cons a u =>
        rw [hcs] at hsg
        simp at hsg
        exact ⟨u, by rw [hsg]⟩
    obtain ⟨h1, h2, h3⟩ := hsh
    rw [ht] at h1 h2 h3 ⊢
    simp only [List.tail_cons] at h1 h2 h3
    rw [List.cons_append, parseNum,
      if_pos (show ('-' :: (t ++ rest)).head? = some '-' from rfl), List.tail_cons]
    rw [parseNumTail_floatShape ['-'] t rest hrest (bool_not_true h1) h2
      (by
        rcases h3 with ⟨ha, hb, hc⟩ | hx
        · refine Or.inl ⟨ha, bool_not_true hb, ?_⟩
          rcases hc with hc | hc
          · exact Or.inl (List.isEmpty_iff.mp hc)
          · exact Or.inr hc
        · exact Or.inr hx)]
    have hfix : String.mk (['-'] ++ t) = s := by
      conv_rhs => rw [show s = String.mk s.data from rfl]
      rw [ht]
      rfl
    rw [hfix]
  · rw [if_neg hsg] at hsh
    obtain ⟨h1, h2, h3⟩ := hsh
    rw [parseNum, if_neg (by
      rw [head?_append_of_ne_nil]
      · exact hsg
      · intro h
        rw [h] at h1
        simp at h1)]
    rw [parseNumTail_floatShape [] s.data rest hrest (bool_not_true h1) h2
      (by
        rcases h3 with ⟨ha, hb, hc⟩ | hx
        · refine Or.inl ⟨ha, bool_not_true hb, ?_⟩
          rcases hc with hc | hc
          · exact Or.inl (List.isEmpty_iff.mp hc)
          · exact Or.inr hc
        · exact Or.inr hx)]
    have hfix : String.mk ([] ++ s.data) = s := by
      rw [List.nil_append]
    rw [hfix]

/-! ### Helper lemmas: reader dispatch -/

theorem isDigit_ne (c : Char) (h : c.isDigit = true) :
    c ≠ 'n' ∧ c ≠ 't' ∧ c ≠ 'f' ∧ c ≠ 'N' ∧ c ≠ 'I' ∧ c ≠ '"' ∧ c ≠ '[' ∧
      c ≠ '\x7b' ∧ c ≠ '-' := by
  refine ⟨?_, ?_, ?_, ?_, ?_, ?_, ?_, ?_, ?_⟩ <;>
    (intro he; subst he; exact absurd h (by decide))

theorem parseVal_ws (f : Nat) (c : Char) (hc : isJsonWs c = true) (cs : List Char) :
    parseVal f (c :: cs) = parseVal f cs := by
  cases f with
  | zero => rfl
  | succ f1 =>
    conv_lhs => rw [parseVal]
    conv_rhs => rw [parseVal]
    rw [show skipWs (c :: cs) = skipWs cs from by
      simp [skipWs, List.dropWhile_cons_of_pos hc]]

theorem parseItems_ws (f : Nat) (c : Char) (hc : isJsonWs c = true) (cs : List Char)
    (acc : List Json) : parseItems f (c :: cs) acc = parseItems f cs acc := by
  cases f with
  | zero => rfl
  | succ f1 =>
    conv_lhs => rw [parseItems]
    conv_rhs => rw [parseItems]
    rw [parseVal_ws f1 c hc cs]

theorem parseMembers_ws (f : Nat) (c : Char) (hc : isJsonWs c = true) (cs : List Char)
    (acc : List (String × Json)) : parseMembers f (c :: cs) acc = parseMembers f cs acc := by
  cases f with
  | zero => rfl
  | succ f1 =>
    conv_lhs => rw [parseMembers]
    conv_rhs => rw [parseMembers]
    rw [show skipWs (c :: cs) = skipWs cs from by
      simp [skipWs, List.dropWhile_cons_of_pos hc]]

theorem parseVal_num (f : Nat) (c : Char) (t : List Char) (hf : 1 ≤ f)
    (hc : c.isDigit = true) : parseVal f (c :: t) = parseNum (c :: t) := by
  obtain ⟨h1, h2, h3, h4, h5, h6, h7, h8, h9⟩ := isDigit_ne c hc
  cases f with
  | zero => omega
  | succ f1 =>
    rw [parseVal, skipWs_cons c t (isDigit_not_ws c hc)]
    simp [h1, h2, h3, h4, h5, h6, h7, h8, h9]

theorem takeWhile_ne_nil_head (p : Char → Bool) (l : List Char)
    (h : (l.takeWhile p).isEmpty = false) : ∃ c t, l = c :: t ∧ p c = true := by
  cases l with
  | nil => simp [List.takeWhile] at h
  | cons c t =>
    by_cases pc : p c
    · exact ⟨c, t, rfl, pc⟩
    · rw [List.takeWhile_cons_of_neg pc] at h
      simp at h

theorem keysNodup_head_not_mem (k : String) (v : Json) :
    ∀ (acc kvs : List (String × Json)), keysNodup (acc ++ (k, v) :: kvs) = true →
      acc.any (fun p => p.1 = k) = false := by
  intro acc
  induction acc with
  | nil => intro kvs _; rfl
  | cons p acc ih =>
    intro kvs h
    rw [List.cons_append, keysNodup] at h
    simp only [Bool.and_eq_true, Bool.not_eq_true] at h
    obtain ⟨hany, hrest⟩ := h
    have hpk : (p.1 = k) = False := by
      by_contra hx
      simp only [eq_iff_iff, iff_false] at hx
      push_neg at hx
      have : (acc ++ (k, v) :: kvs).any (fun q => q.1 = p.1) = true := by
        rw [List.any_eq_true]
        exact ⟨(k, v), by simp, by simp [hx]⟩
      rw [this] at hany
      simp at hany
    rw [List.any_cons, ih kvs hrest]
    simp [hpk]

theorem pyDictInsert_append (acc : List (String × Json)) (k : String) (v : Json)
    (h : acc.any (fun p => p.1 = k) = false) :
    pyDictInsert acc k v = acc ++ [(k, v)] := by
  rw [pyDictInsert, if_neg (by rw [h]; simp)]

theorem printJson_head (v : Json) (hwf : wfJson v = true) :
    ∃ c t, printJson v = c :: t ∧ isJsonWs c = false ∧ c ≠ ']' ∧ c ≠ '\x7d' ∧
      c ≠ ',' ∧ c ≠ ':' := by
  cases v with
  | null => exact ⟨'n', _, rfl, by decide, by decide, by decide, by decide, by decide⟩
  | bool b =>
    cases b with
    | true => exact ⟨'t', _, rfl, by decide, by decide, by decide, by decide, by decide⟩
    | false => exact ⟨'f', _, rfl, by decide, by decide, by decide, by decide, by decide⟩
  | int n =>
    rw [printJson]
    by_cases hn : n < 0
    · rw [intPrint, if_pos hn]
      exact ⟨'-', _, rfl, by decide, by decide, by decide, by decide, by decide⟩
    · rw [intPrint, if_neg hn]
      cases hp : natPrint n.natAbs with
      | nil => exact absurd hp (natPrint_ne_nil _)
      | cons d t =>
        have hd : d.isDigit = true := natPrint_digits _ d (by rw [hp]; simp)
        obtain ⟨_, _, _, _, _, _, _, _, _⟩ := isDigit_ne d hd
        refine ⟨d, t, rfl, isDigit_not_ws d hd, ?_, ?_, ?_, ?_⟩ <;>
          (intro he; subst he; exact absurd hd (by decide))
  | float lit =>
    rw [printJson]
    have hok : floatLitOk lit = true := by simpa [wfJson] using hwf
    rw [floatLitOk] at hok
    simp only [Bool.or_eq_true, beq_iff_eq] at hok
    rcases hok with ((hsh | hInf) | hnInf) | hNaN
    · simp only [floatShapeB, decide_eq_true_eq] at hsh
      obtain ⟨h1, _, _⟩ := hsh
      by_cases hsg : lit.data.head? = some '-'
      · obtain ⟨t, ht⟩ : ∃ t, lit.data = '-' :: t := by
          cases hcs : lit.data with
          | nil => rw [hcs] at hsg; simp at hsg
          | cons a u =>
            rw [hcs] at hsg
            simp at hsg
            exact ⟨u, by rw [hsg]⟩
        exact ⟨'-', t, ht, by decide, by decide, by decide, by decide, by decide⟩
      · rw [if_neg hsg] at h1
        have h1f : (lit.data.takeWhile Char.isDigit).isEmpty = false := bool_not_true h1
        obtain ⟨c, t, hct, hcd⟩ := takeWhile_ne_nil_head _ _ h1f
        obtain ⟨_, _, _, _, _, _, _, _, _⟩ := isDigit_ne c hcd
        refine ⟨c, t, hct, isDigit_not_ws c hcd, ?_, ?_, ?_, ?_⟩ <;>
          (intro he; subst he; exact absurd hcd (by decide))
    · rw [hInf]
      exact ⟨'I', _, rfl, by decide, by decide, by decide, by decide, by decide⟩
    · rw [hnInf]
      exact ⟨'-', _, rfl, by decide, by decide, by decide, by decide, by decide⟩
    · rw [hNaN]
      exact ⟨'N', _, rfl, by decide, by decide, by decide, by decide, by decide⟩
  | str s => exact ⟨'"', _, rfl, by decide, by decide, by decide, by decide, by decide⟩
  | arr xs =>
    cases xs with
    | nil => exact ⟨'[', _, rfl, by decide, by decide, by decide, by decide, by decide⟩
    | cons x xs => exact ⟨'[', _, rfl, by decide, by decide, by decide, by decide, by decide⟩
  | obj kvs =>
    cases kvs with
    | nil => exact ⟨'\x7b', _, rfl, by decide, by decide, by decide, by decide, by decide⟩
    | cons p kvs => exact ⟨'\x7b', _, rfl, by decide, by decide, by decide, by decide, by decide⟩

/-! ### Fuel bound: nodes never exceed printed length plus one -/

mutual

theorem nodes_le_print (v : Json) : nodes v ≤ (printJson v).length + 1 := by
  cases v with
  | null => simp [nodes, printJson]
  | bool b => cases b <;> simp [nodes, printJson]
  | int n => simp [nodes]
  | float lit => simp [nodes]
  | str s => simp [nodes]
  | arr xs =>
    cases xs with
    | nil => simp [nodes, nodesList, printJson]
    | cons x tl =>
      have h1 := nodes_le_print x
      have h2 := nodesList_le_print tl
      simp only [nodes, nodesList, printJson, List.length_cons, List.length_append]
      omega
  | obj kvs =>
    cases kvs with
    | nil => simp [nodes, nodesMembers, printJson]
    | cons p tl =>
      obtain ⟨k, w⟩ := p
      have h1 := nodes_le_print w
      have h2 := nodesMembers_le_print tl
      simp only [nodes, nodesMembers, printJson, printMember, List.length_cons,
        List.length_append]
      omega

theorem nodesList_le_print (xs : List Json) :
    nodesList xs ≤ (printItemsRest xs).length := by
  cases xs with
  | nil => simp [nodesList, printItemsRest]
  | cons x tl =>
    have h1 := nodes_le_print x
    have h2 := nodesList_le_print tl
    simp only [nodesList, printItemsRest, List.length_cons, List.length_append]
    omega

theorem nodesMembers_le_print (kvs : List (String × Json)) :
    nodesMembers kvs ≤ (printMembersRest kvs).length := by
  cases kvs with
  | nil => simp [nodesMembers, printMembersRest]
  | cons p tl =>
    obtain ⟨k, w⟩ := p
    have h1 := nodes_le_print w
    have h2 := nodesMembers_le_print tl
    simp only [nodesMembers, printMembersRest, printMember, List.length_cons,
      List.length_append]
    omega

end

/-! ### The reader inverts the printer on well-formed values -/

theorem parseVal_quote (f : Nat) (cs1 : List Char) :
    parseVal (f + 1) ('"' :: cs1) =
      (parseStr cs1).map (fun pr => (Json.str (String.mk pr.1), pr.2)) := rfl

theorem parseVal_bracket (f : Nat) (cs1 : List Char) :
    parseVal (f + 1) ('[' :: cs1) =
      (if (skipWs cs1).head? = some ']' then some (.arr [], (skipWs cs1).tail)
       else parseItems f cs1 []) := rfl

theorem parseVal_brace (f : Nat) (cs1 : List Char) :
    parseVal (f + 1) ('\x7b' :: cs1) =
      (if (skipWs cs1).head? = some '\x7d' then some (.obj [], (skipWs cs1).tail)
       else parseMembers f cs1 []) := rfl

theorem parseVal_minus (f : Nat) (cs1 : List Char) :
    parseVal (f + 1) ('-' :: cs1) =
      (match stripPre "Infinity".data cs1 with
       | some r => some (.float "-Infinity", r)
       | none => parseNum ('-' :: cs1)) := rfl

mutual

theorem parse_print (v : Json) (f : Nat) (hf : nodes v ≤ f) (rest : List Char)
    (hwf : wfJson v = true) (hrest : restDelimB rest = true) :
    parseVal f (printJson v ++ rest) = some (v, rest) := by
  cases v with
  | null =>
    cases f with
    | zero => simp [nodes] at hf
    | succ f1 => rfl
  | bool b =>
    cases f with
    | zero => simp [nodes] at hf
    | succ f1 => cases b <;> rfl
  | int n =>
    cases f with
    | zero => simp [nodes] at hf
    | succ f1 =>
      rw [printJson]
      by_cases hn : n < 0
      · rw [intPrint, if_pos hn]
        obtain ⟨d, t, hdt⟩ : ∃ d t, natPrint n.natAbs = d :: t := by
          cases hp : natPrint n.natAbs with
          | nil => exact absurd hp (natPrint_ne_nil _)
          | cons a b => exact ⟨a, b, rfl⟩
        have hdd : d.isDigit = true := natPrint_digits _ d (by rw [hdt]; simp)
        have hdI : d ≠ 'I' := by
          intro he
          subst he
          exact absurd hdd (by decide)
        have hsp : stripPre "Infinity".data (natPrint n.natAbs ++ rest) = none := by
          rw [hdt, List.cons_append]
          simp [stripPre, hdI]
        rw [List.cons_append, parseVal_minus, hsp, ← List.cons_append,
          show ('-' : Char) :: natPrint n.natAbs = intPrint n from by
            rw [intPrint, if_pos hn],
          parseNum_intPrint n rest hrest]
      · rw [intPrint, if_neg hn]
        obtain ⟨d, t, hdt⟩ : ∃ d t, natPrint n.natAbs = d :: t := by
          cases hp : natPrint n.natAbs with
          | nil => exact absurd hp (natPrint_ne_nil _)
          | cons a b => exact ⟨a, b, rfl⟩
        have hdd : d.isDigit = true := natPrint_digits _ d (by rw [hdt]; simp)
        rw [hdt, List.cons_append, parseVal_num (f1 + 1) d _ (by omega) hdd,
          ← List.cons_append, ← hdt, parseNum_natPrint n.natAbs rest hrest,
          Int.natAbs_of_nonneg (by omega)]
  | float lit =>
    cases f with
    | zero => simp [nodes] at hf
    | succ f1 =>
      rw [printJson]
      have hok : floatLitOk lit = true := by simpa [wfJson] using hwf
      rw [floatLitOk] at hok
      simp only [Bool.or_eq_true, beq_iff_eq] at hok
      rcases hok with ((hsh | hInf) | hnInf) | hNaN
      · have hshB : floatShapeB lit = true := hsh
        simp only [floatShapeB, decide_eq_true_eq] at hsh
        by_cases hsg : lit.data.head? = some '-'
        · rw [if_pos hsg] at hsh
          obtain ⟨t, ht⟩ : ∃ t, lit.data = '-' :: t := by
            cases hcs : lit.data with
            | nil => rw [hcs] at hsg; simp at hsg
            | cons a u =>
              rw [hcs] at hsg
              simp at hsg
              exact ⟨u, by rw [hsg]⟩
          obtain ⟨h1, _, _⟩ := hsh
          rw [ht] at h1
          simp only [List.tail_cons] at h1
          obtain ⟨d, t2, hdt2, hdd⟩ := takeWhile_ne_nil_head _ _ (bool_not_true h1)
          have hdI : d ≠ 'I' := by
            intro he
            subst he
            exact absurd hdd (by decide)
          have hsp : stripPre "Infinity".data (t ++ rest) = none := by
            rw [hdt2, List.cons_append]
            simp [stripPre, hdI]
          rw [ht, List.cons_append, parseVal_minus, hsp, ← List.cons_append, ← ht,
            floatShape_parseNum lit rest hshB hrest]
        · rw [if_neg hsg] at hsh
          obtain ⟨h1, _, _⟩ := hsh
          obtain ⟨d, t2, hdt2, hdd⟩ := takeWhile_ne_nil_head _ _ (bool_not_true h1)
          rw [hdt2, List.cons_append, parseVal_num (f1 + 1) d _ (by omega) hdd,
            ← List.cons_append, ← hdt2, floatShape_parseNum lit rest hshB hrest]
      · subst hInf; rfl
      · subst hnInf; rfl
      · subst hNaN; rfl
  | str s =>
    cases f with
    | zero => simp [nodes] at hf
    | succ f1 =>
      rw [printJson,
        show ('"' :: escString s.data ++ ['"']) ++ rest
          = '"' :: (escString s.data ++ '"' :: rest) from by simp,
        parseVal_quote, parseStr,
        parseStrBody_escape s.data _ rest (by
          simp only [List.length_append, List.length_cons]
          omega)]
      rfl
  | arr xs =>
    cases xs with
    | nil =>
      cases f with
      | zero => simp [nodes, nodesList] at hf
      | succ f1 => rfl
    | cons x tl =>
      cases f with
      | zero => simp [nodes, nodesList] at hf
      | succ f1 =>
        have hwf2 : wfList (x :: tl) = true := by simpa [wfJson] using hwf
        have hwfx : wfJson x = true := by
          rw [wfList] at hwf2
          exact ((Bool.and_eq_true _ _).mp hwf2).1
        obtain ⟨c, t, hct, hcw, hc1, hc2, hc3, hc4⟩ := printJson_head x hwfx
        rw [printJson,
          show ('[' :: (printJson x ++ printItemsRest tl) ++ [']']) ++ rest
            = '[' :: (printJson x ++ (printItemsRest tl ++ ']' :: rest)) from by simp,
          parseVal_bracket]
        have hcs1 : printJson x ++ (printItemsRest tl ++ ']' :: rest)
            = c :: (t ++ (printItemsRest tl ++ ']' :: rest)) := by
          rw [hct]
          rfl
        rw [if_neg (by
          rw [hcs1, skipWs_cons _ _ hcw]
          simp [hc1])]
        have := parse_print_items x tl f1 (by rw [nodes] at hf; omega) [] rest hwf2 hrest
        simpa using this
  | obj kvs =>
    cases kvs with
    | nil =>
      cases f with
      | zero => simp [nodes, nodesMembers] at hf
      | succ f1 => rfl
    | cons p tl =>
      obtain ⟨k, w⟩ := p
      cases f with
      | zero => simp [nodes, nodesMembers] at hf
      | succ f1 =>
        have hnk : keysNodup ((k, w) :: tl) = true := by
          have := hwf
          rw [wfJson] at this
          exact ((Bool.and_eq_true _ _).mp this).1
        have hwfm : wfMembers ((k, w) :: tl) = true := by
          have := hwf
          rw [wfJson] at this
          exact ((Bool.and_eq_true _ _).mp this).2
        rw [printJson,
          show ('\x7b' :: (printMember (k, w) ++ printMembersRest tl) ++ ['\x7d']) ++ rest
            = '\x7b' :: (printMember (k, w) ++ (printMembersRest tl ++ '\x7d' :: rest))
            from by simp,
          parseVal_brace]
        have hcs1 : printMember (k, w) ++ (printMembersRest tl ++ '\x7d' :: rest)
            = '"' :: (escString k.data ++ ('"' :: ':' :: ' ' :: printJson w)
                ++ (printMembersRest tl ++ '\x7d' :: rest)) := by
          rw [printMember]
          simp
        rw [if_neg (by
          rw [hcs1, skipWs_cons _ _ (by decide)]
          simp)]
        have := parse_print_members k w tl f1 (by rw [nodes] at hf; omega) [] rest hwfm
          (by simpa using hnk) hrest
        simpa using this
termination_by f
decreasing_by all_goals omega

theorem parse_print_items (x : Json) (xs : List Json) (f : Nat)
    (hf : nodesList (x :: xs) ≤ f) (acc : List Json) (rest : List Char)
    (hwf : wfList (x :: xs) = true) (hrest : restDelimB rest = true) :
    parseItems f (printJson x ++ (printItemsRest xs ++ ']' :: rest)) acc =
      some (.arr (acc ++ x :: xs), rest) := by
  cases f with
  | zero => simp [nodesList] at hf
  | succ f1 =>
    rw [wfList, Bool.and_eq_true] at hwf
    obtain ⟨hwfx, hwfxs⟩ := hwf
    rw [parseItems,
      parse_print x f1 (by rw [nodesList] at hf; omega) _ hwfx (by
        cases xs with
        | nil => simp [printItemsRest, restDelimB]
        | cons y ys => simp [printItemsRest, restDelimB])]
    try dsimp only []
    cases xs with
    | nil =>
      rw [show printItemsRest ([] : List Json) ++ ']' :: rest = ']' :: rest from by
        simp [printItemsRest],
        skipWs_cons _ _ (by decide)]
      simp only [List.head?_cons, List.tail_cons]
      rw [if_pos trivial, if_neg (by decide)]
    | cons y ys =>
      rw [show printItemsRest (y :: ys) ++ ']' :: rest
          = ',' :: ' ' :: (printJson y ++ (printItemsRest ys ++ ']' :: rest)) from by
        simp [printItemsRest],
        skipWs_cons _ _ (by decide)]
      simp only [List.head?_cons, List.tail_cons]
      rw [if_pos trivial, parseItems_ws f1 ' ' (by decide),
        parse_print_items y ys f1 (by
          rw [nodesList] at hf
          rw [nodesList] at hf ⊢
          omega) (acc ++ [x]) rest hwfxs hrest]
      simp
termination_by f
decreasing_by all_goals omega

theorem parse_print_members (k : String) (w : Json) (kvs : List (String × Json)) (f : Nat)
    (hf : nodesMembers ((k, w) :: kvs) ≤ f) (acc : List (String × Json)) (rest : List Char)
    (hwf : wfMembers ((k, w) :: kvs) = true)
    (hkeys : keysNodup (acc ++ (k, w) :: kvs) = true) (hrest : restDelimB rest = true) :
    parseMembers f (printMember (k, w) ++ (printMembersRest kvs ++ '\x7d' :: rest)) acc =
      some (.obj (acc ++ (k, w) :: kvs), rest) := by
  cases f with
  | zero => simp [nodesMembers] at hf
  | succ f1 =>
    rw [wfMembers, Bool.and_eq_true] at hwf
    obtain ⟨hwfw, hwfkvs⟩ := hwf
    rw [show printMember (k, w) ++ (printMembersRest kvs ++ '\x7d' :: rest)
        = '"' :: (escString k.data ++ '"' :: (':' :: ' ' :: (printJson w ++
            (printMembersRest kvs ++ '\x7d' :: rest)))) from by
      simp [printMember],
      parseMembers, skipWs_cons _ _ (by decide)]
    try dsimp only []
    simp only [List.head?_cons, List.tail_cons]
    rw [if_pos trivial, parseStr,
      parseStrBody_escape k.data _ _ (by
        simp only [List.length_append, List.length_cons]
        omega)]
    try dsimp only []
    rw [skipWs_cons _ _ (by decide)]
    simp only [List.head?_cons, List.tail_cons]
    rw [if_pos trivial, parseVal_ws f1 ' ' (by decide),
      parse_print w f1 (by rw [nodesMembers] at hf; dsimp only [] at hf; omega) _ hwfw (by
        cases kvs with
        | nil => simp [printMembersRest, restDelimB]
        | cons q qs => simp [printMembersRest, restDelimB])]
    try dsimp only []
    have hins : pyDictInsert acc (String.mk k.data) w = acc ++ [(k, w)] := by
      rw [show String.mk k.data = k from rfl]
      exact pyDictInsert_append acc k w (keysNodup_head_not_mem k w acc kvs hkeys)
    cases kvs with
    | nil =>
      rw [show printMembersRest ([] : List (String × Json)) ++ '\x7d' :: rest
          = '\x7d' :: rest from by simp [printMembersRest],
        skipWs_cons _ _ (by decide)]
      simp only [List.head?_cons, List.tail_cons]
      rw [if_pos trivial, if_neg (by decide), hins]
    | cons q qs =>
      obtain ⟨k2, w2⟩ := q
      rw [show printMembersRest ((k2, w2) :: qs) ++ '\x7d' :: rest
          = ',' :: ' ' :: (printMember (k2, w2) ++ (printMembersRest qs ++ '\x7d' :: rest))
          from by simp [printMembersRest],
        skipWs_cons _ _ (by decide)]
      simp only [List.head?_cons, List.tail_cons]
      rw [if_pos trivial, hins, parseMembers_ws f1 ' ' (by decide),
        parse_print_members k2 w2 qs f1 (by
          rw [nodesMembers] at hf
          rw [nodesMembers] at hf ⊢
          omega) (acc ++ [(k, w)]) rest hwfkvs (by simpa using hkeys) hrest]
      simp
termination_by f
decreasing_by all_goals omega

end

/-- `json.loads(json.dumps(v))` recovers any well-formed value. -/
theorem jsonLoads_dumps (v : Json) (hwf : wfJson v = true) :
    jsonLoads (dumps v) = some v := by
  have h := parse_print v ((printJson v).length + 1) (nodes_le_print v) [] hwf rfl
  rw [List.append_nil] at h
  rw [jsonLoads, show (dumps v).length = (printJson v).length from rfl,
    show (dumps v).data = printJson v from rfl, h]
  rfl

/-! ### Python dict merge: lookup and precedence -/

theorem ofirst_none (y : Option Json) : ofirst none y = y := rfl

theorem jlookup_append (k : String) : ∀ (l1 l2 : List (String × Json)),
    jlookup k (l1 ++ l2) = ofirst (jlookup k l1) (jlookup k l2) := by
  intro l1
  induction l1 with
  | nil => intro l2; rfl
  | cons p r ih =>
    intro l2
    rw [List.cons_append, jlookup, jlookup]
    by_cases hp : p.1 = k
    · simp [hp, ofirst]
    · simp only [hp, if_false]
      exact ih l2

theorem jlookup_map_upd (k k1 : String) (v1 : Json) (hk : k1 ≠ k) :
    ∀ (a : List (String × Json)),
      jlookup k (a.map (fun p => if p.1 = k1 then (k1, v1) else p)) = jlookup k a := by
  intro a
  induction a with
  | nil => rfl
  | cons p r ih =>
    rw [List.map_cons, jlookup, jlookup]
    by_cases hp : p.1 = k1
    · rw [if_pos hp]
      dsimp only []
      rw [if_neg hk, if_neg (show ¬p.1 = k from by rw [hp]; exact hk)]
      exact ih
    · simp only [hp, if_false]
      by_cases hpk : p.1 = k
      · simp [hpk]
      · simp only [hpk, if_false]
        exact ih

theorem jlookup_map_upd_self (k1 : String) (v1 : Json) :
    ∀ (a : List (String × Json)), a.any (fun p => p.1 = k1) = true →
      jlookup k1 (a.map (fun p => if p.1 = k1 then (k1, v1) else p)) = some v1 := by
  intro a
  induction a with
  | nil => intro h; simp at h
  | cons p r ih =>
    intro hmem
    rw [List.map_cons, jlookup]
    by_cases hp : p.1 = k1
    · simp [hp]
    · simp only [hp, if_false]
      rw [List.any_cons, Bool.or_eq_true] at hmem
      rcases hmem with h | h
      · simp [hp] at h
      · exact ih h

theorem jlookup_pyDictInsert (a : List (String × Json)) (k k1 : String) (v1 : Json) :
    jlookup k (pyDictInsert a k1 v1) =
      if k1 = k then some v1 else jlookup k a := by
  rw [pyDictInsert]
  by_cases hmem : a.any (fun p => p.1 = k1) = true
  · rw [if_pos hmem]
    by_cases hk : k1 = k
    · subst hk
      rw [if_pos rfl]
      exact jlookup_map_upd_self k1 v1 a hmem
    · rw [if_neg hk]
      exact jlookup_map_upd k k1 v1 hk a
  · rw [if_neg hmem, jlookup_append]
    have hone : jlookup k [(k1, v1)] = if k1 = k then some v1 else none := by
      rw [jlookup]
      by_cases h : k1 = k <;> simp [h, jlookup]
    rw [hone]
    by_cases h : k1 = k
    · have hnone : jlookup k a = none := by
        subst h
        induction a with
        | nil => rfl
        | cons p r ih =>
          rw [List.any_cons, Bool.or_eq_true] at hmem
          push_neg at hmem
          rw [jlookup, if_neg (by simpa using hmem.1)]
          exact ih (by simpa using hmem.2)
      simp [h, hnone, ofirst]
    · simp only [h, if_false]
      cases jlookup k a <;> rfl

theorem jlookupLast_cons (k : String) (p : String × Json) (bs : List (String × Json)) :
    jlookupLast k (p :: bs) =
      ofirst (jlookupLast k bs) (if p.1 = k then some p.2 else none) := by
  rw [jlookupLast, jlookupLast, List.reverse_cons, jlookup_append]
  rw [show jlookup k [p] = if p.1 = k then some p.2 else none from by
    rw [jlookup]
    by_cases h : p.1 = k <;> simp [h, jlookup]]

theorem jlookup_pyMerge (k : String) : ∀ (b a : List (String × Json)),
    jlookup k (pyMerge a b) = ofirst (jlookupLast k b) (jlookup k a) := by
  intro b
  induction b with
  | nil => intro a; rfl
  | cons p bs ih =>
    intro a
    rw [show pyMerge a (p :: bs) = pyMerge (pyDictInsert a p.1 p.2) bs from rfl,
      ih, jlookup_pyDictInsert, jlookupLast_cons]
    cases jlookupLast k bs with
    | some v => rfl
    | none =>
      by_cases h : p.1 = k
      · simp [h, ofirst]
      · simp [h, ofirst]

/-! ### Publisher status handling: redelivery counts -/

theorem pub_on_message_known_mono (topic : String) (records : List Json) (qos : Nat)
    (st : PubState) (mt payload : String) (i : String) (h : i ∈ st.known) :
    i ∈ (pub_on_message topic records qos st mt payload).1.known := by
  rw [pub_on_message]
  by_cases ht : mt = status_topic topic
  · rw [if_pos ht]
    by_cases hk : pyStrip payload ∈ st.known
    · rw [if_pos hk]
      exact h
    · rw [if_neg hk]
      exact List.mem_cons_of_mem _ h
  · rw [if_neg ht]
    exact h

theorem status_redeliveries_of_known (topic : String) (records : List Json) (qos : Nat)
    (i : String) : ∀ (ps : List String) (st : PubState), i ∈ st.known →
      status_redeliveries topic records qos st i ps = 0 := by
  intro ps
  induction ps with
  | nil => intro st _; rfl
  | cons p ps ih =>
    intro st h
    rw [status_redeliveries]
    rw [if_neg (by
      rintro ⟨h1, h2⟩
      exact h2 (h1 ▸ h))]
    rw [ih _ (pub_on_message_known_mono topic records qos st _ p i h)]

theorem status_redeliveries_of_new (topic : String) (records : List Json) (qos : Nat)
    (i : String) : ∀ (ps : List String) (st : PubState), i ∉ st.known →
      (∃ p ∈ ps, pyStrip p = i) →
      status_redeliveries topic records qos st i ps = 1 := by
  intro ps
  induction ps with
  | nil =>
    intro st _ hex
    simp at hex
  | cons p ps ih =>
    intro st hnew hex
    rw [status_redeliveries]
    by_cases hp : pyStrip p = i
    · rw [if_pos ⟨hp, hp ▸ hnew⟩]
      have hstep : (pub_on_message topic records qos st (status_topic topic) p).1 =
          { known := pyStrip p :: st.known } := by
        rw [pub_on_message, if_pos rfl, if_neg (hp ▸ hnew)]
      rw [hstep, status_redeliveries_of_known topic records qos i ps _ (by
        rw [hp]
        exact List.mem_cons_self i st.known)]
    · rw [if_neg (by rintro ⟨h1, _⟩; exact hp h1)]
      have hex2 : ∃ q ∈ ps, pyStrip q = i := by
        rcases hex with ⟨q, hq, hqi⟩
        rcases List.mem_cons.mp hq with h | h
        · exact absurd (h ▸ hqi) hp
        · exact ⟨q, h, hqi⟩
      rw [pub_on_message, if_pos rfl]
      by_cases hk : pyStrip p ∈ st.known
      · rw [if_pos hk]
        rw [show ((st, ([] : List PubEvent)).1 : PubState) = st from rfl, Nat.zero_add]
        exact ih st hnew hex2
      · rw [if_neg hk]
        rw [Nat.zero_add]
        refine ih _ (fun hmem => ?_) hex2
        rcases List.mem_cons.mp hmem with h | h
        · exact hp h.symm
        · exact hnew h


/-! ### Connect retry loop -/

theorem connect_loop_ok (ok : Nat → Bool) (n rem : Nat) (h : ok n = true) :
    connect_loop ok n (rem + 1) = ([.attempt n], true) := by
  rw [connect_loop, if_pos h]

theorem connect_loop_all_fail (ok : Nat → Bool) (h : ∀ m, ok m = false) :
    ∀ (rem n : Nat), 1 ≤ rem →
      attemptsOf (connect_loop ok n rem).1 = List.range' n rem ∧
      sleepsOf (connect_loop ok n rem).1 =
        List.replicate (rem - 1) CONNECT_RETRY_DELAY ∧
      (connect_loop ok n rem).2 = false := by
  intro rem
  induction rem with
  | zero => intro n h1; omega
  | succ r ih =>
    intro n _
    rw [connect_loop, if_neg (by rw [h n]; intro hc; cases hc)]
    cases r with
    | zero =>
      refine ⟨?_, ?_, rfl⟩
      · rfl
      · rfl
    | succ r2 =>
      rw [if_neg (by omega)]
      obtain ⟨h1, h2, h3⟩ := ih (n + 1) (by omega)
      refine ⟨?_, ?_, h3⟩
      · rw [show attemptsOf (ConnEvent.attempt n :: ConnEvent.sleep CONNECT_RETRY_DELAY ::
            (connect_loop ok (n + 1) (r2 + 1)).1)
            = n :: attemptsOf (connect_loop ok (n + 1) (r2 + 1)).1 from rfl, h1]
        simp [List.range'_succ]
      · rw [show sleepsOf (ConnEvent.attempt n :: ConnEvent.sleep CONNECT_RETRY_DELAY ::
            (connect_loop ok (n + 1) (r2 + 1)).1)
            = CONNECT_RETRY_DELAY :: sleepsOf (connect_loop ok (n + 1) (r2 + 1)).1 from rfl,
          h2]
        rfl

theorem connect_with_retry_all_fail (ok : Nat → Bool) (h : ∀ m, ok m = false) :
    attemptsOf (connect_with_retry ok).1 = List.range' 1 12 ∧
    sleepsOf (connect_with_retry ok).1 = List.replicate 11 CONNECT_RETRY_DELAY ∧
    (connect_with_retry ok).2 = false := by
  have := connect_loop_all_fail ok h 12 1 (by omega)
  exact this

/-! ### The layered parser on published and once-escaped payloads -/

theorem utf8Bytes_ascii (c : Char) (h : c.toNat < 128) : utf8Bytes c = [c.toNat] := by
  rw [utf8Bytes]
  simp [h]

theorem utf8List_append : ∀ (a b : List Char),
    utf8List (a ++ b) = utf8List a ++ utf8List b := by
  intro a
  induction a with
  | nil => intro b; rfl
  | cons c r ih =>
    intro b
    rw [List.cons_append, utf8List, utf8List, ih, List.append_assoc]

theorem ueBytes_quote (f : Nat) (B : List Nat) :
    ueBytes (f + 1) (92 :: 34 :: B) = (ueBytes f B).map (fun l => '"' :: l) := rfl

theorem ueBytes_backslash_pair (f : Nat) (B : List Nat) :
    ueBytes (f + 1) (92 :: 92 :: B) = (ueBytes f B).map (fun l => '\\' :: l) := rfl

theorem ueBytes_plain (f : Nat) (b : Nat) (B : List Nat) (h : b ≠ 92) :
    ueBytes (f + 1) (b :: B) = (ueBytes f B).map (fun l => Char.ofNat b :: l) := by
  rw [ueBytes.eq_def]
  simp [h]

theorem onceEscapeChars_quote (r : List Char) :
    onceEscapeChars ('"' :: r) = '\\' :: '"' :: onceEscapeChars r := by
  rw [onceEscapeChars]
  simp

theorem onceEscapeChars_backslash (r : List Char) :
    onceEscapeChars ('\\' :: r) = '\\' :: '\\' :: onceEscapeChars r := by
  rw [onceEscapeChars]
  simp

theorem onceEscapeChars_other (c : Char) (r : List Char) (h1 : c ≠ '"')
    (h2 : c ≠ '\\') : onceEscapeChars (c :: r) = c :: onceEscapeChars r := by
  rw [onceEscapeChars]
  simp [h1, h2]

theorem char_ofNat_toNat (c : Char) : Char.ofNat c.toNat = c :=
  Char.ofNat_toNat c

/-- `unicode_escape` inverts one layer of escaping on ASCII text. -/
theorem ueBytes_onceEscape : ∀ (t : List Char), allAscii t = true →
    ∀ (f : Nat), (utf8List (onceEscapeChars t)).length < f →
    ueBytes f (utf8List (onceEscapeChars t)) = some t := by
  intro t
  induction t with
  | nil =>
    intro _ f hf
    cases f with
    | zero => omega
    | succ f1 => rfl
  | cons c r ih =>
    intro hall f hf
    rw [allAscii, List.all_cons, Bool.and_eq_true] at hall
    obtain ⟨hc, hr⟩ := hall
    have hc128 : c.toNat < 128 := by simpa using hc
    by_cases hq : c = '"'
    · subst hq
      rw [onceEscapeChars_quote] at hf ⊢
      rw [show utf8List ('\\' :: '"' :: onceEscapeChars r)
          = 92 :: 34 :: utf8List (onceEscapeChars r) from by
        rw [utf8List, utf8List, utf8Bytes_ascii _ (by decide), utf8Bytes_ascii _ (by decide)]
        rfl] at hf ⊢
      cases f with
      | zero => omega
      | succ f1 =>
        rw [ueBytes_quote, ih hr f1 (by
          simp only [List.length_cons] at hf
          omega)]
        rfl
    · by_cases hb : c = '\\'
      · subst hb
        rw [onceEscapeChars_backslash] at hf ⊢
        rw [show utf8List ('\\' :: '\\' :: onceEscapeChars r)
            = 92 :: 92 :: utf8List (onceEscapeChars r) from by
          rw [utf8List, utf8List, utf8Bytes_ascii _ (by decide)]
          rfl] at hf ⊢
        cases f with
        | zero => omega
        | succ f1 =>
          rw [ueBytes_backslash_pair, ih hr f1 (by
            simp only [List.length_cons] at hf
            omega)]
          rfl
      · rw [onceEscapeChars_other c r hq hb] at hf ⊢
        rw [show utf8List (c :: onceEscapeChars r)
            = c.toNat :: utf8List (onceEscapeChars r) from by
          rw [utf8List, utf8Bytes_ascii c hc128]
          rfl] at hf ⊢
        cases f with
        | zero => omega
        | succ f1 =>
          rw [ueBytes_plain f1 c.toNat _ (by
            intro h92
            exact hb (by
              have := char_ofNat_toNat c
              rw [h92] at this
              exact this.symm)),
            ih hr f1 (by
              simp only [List.length_cons] at hf
              omega)]
          rw [char_ofNat_toNat c]
          rfl

/-- Strategy 2 of the layered parser recovers the original ASCII text of
a once-escaped payload. -/
theorem pyUnicodeEscape_onceEscape (s : String) (h : allAscii s.data = true) :
    pyUnicodeEscape (onceEscape s) = some s := by
  rw [pyUnicodeEscape,
    show (onceEscape s).data = onceEscapeChars s.data from rfl,
    ueBytes_onceEscape s.data h _ (by omega)]
  rfl

theorem parseMembers_backslash (f : Nat) (T : List Char)
    (acc : List (String × Json)) : parseMembers f ('\\' :: T) acc = none := by
  cases f with
  | zero => rfl
  | succ f1 =>
    rw [parseMembers, skipWs_cons _ _ (by decide)]
    try dsimp only []
    simp only [List.head?_cons]
    rw [if_neg (by decide)]

theorem jsonLoads_brace_backslash (T : List Char) :
    jsonLoads (String.mk ('\x7b' :: '\\' :: T)) = none := by
  rw [jsonLoads,
    show (String.mk ('\x7b' :: '\\' :: T)).length = T.length + 2 from by
      rw [show (String.mk ('\x7b' :: '\\' :: T)).length
          = ('\x7b' :: '\\' :: T).length from rfl]
      simp,
    show (String.mk ('\x7b' :: '\\' :: T)).data = '\x7b' :: '\\' :: T from rfl,
    show T.length + 2 + 1 = (T.length + 2) + 1 from rfl, parseVal_brace,
    skipWs_cons _ _ (by decide)]
  simp only [List.head?_cons]
  rw [if_neg (by decide), parseMembers_backslash]

/-- The text of a published non-empty object starts with a brace and a
quote, so its once-escaped form starts with a brace and a backslash. -/
theorem onceEscape_dumps_obj (p : String × Json) (tl : List (String × Json)) :
    (onceEscape (dumps (.obj (p :: tl)))).data =
      '\x7b' :: '\\' :: '"' ::
        onceEscapeChars (escString p.1.data ++ ['"', ':', ' '] ++ printJson p.2
          ++ printMembersRest tl ++ ['\x7d']) := by
  obtain ⟨k, w⟩ := p
  rw [show (onceEscape (dumps (Json.obj ((k, w) :: tl)))).data
      = onceEscapeChars (printJson (.obj ((k, w) :: tl))) from rfl,
    show printJson (.obj ((k, w) :: tl))
      = '\x7b' :: '"' :: (escString k.data ++ ['"', ':', ' '] ++ printJson w
          ++ printMembersRest tl ++ ['\x7d']) from by
      rw [printJson, printMember]
      simp,
    onceEscapeChars_other _ _ (by decide) (by decide), onceEscapeChars_quote]

/-- On a once-escaped non-empty object payload the direct parse fails. -/
theorem jsonLoads_onceEscape_obj (p : String × Json) (tl : List (String × Json)) :
    jsonLoads (onceEscape (dumps (.obj (p :: tl)))) = none := by
  have h := onceEscape_dumps_obj p tl
  rw [show onceEscape (dumps (.obj (p :: tl)))
      = String.mk ('\x7b' :: '\\' :: '"' ::
          onceEscapeChars (escString p.1.data ++ ['"', ':', ' '] ++ printJson p.2
            ++ printMembersRest tl ++ ['\x7d'])) from by
    rw [← h],
    jsonLoads_brace_backslash]

/-- Strategy 1 alone settles a faithfully published payload. -/
theorem try_parse_dumps (v : Json) (hwf : wfJson v = true) :
    try_parse_json_payload (dumps v) = some v := by
  rw [try_parse_json_payload, jsonLoads_dumps v hwf]

/-- A once-escaped published object is recovered by strategy 2. -/
theorem try_parse_onceEscape_obj (p : String × Json) (tl : List (String × Json))
    (hwf : wfJson (.obj (p :: tl)) = true)
    (hascii : allAscii (dumps (.obj (p :: tl))).data = true) :
    try_parse_json_payload (onceEscape (dumps (.obj (p :: tl)))) =
      some (.obj (p :: tl)) := by
  rw [try_parse_json_payload, jsonLoads_onceEscape_obj,
    pyUnicodeEscape_onceEscape _ hascii]
  rw [show (some (dumps (Json.obj (p :: tl)))).bind jsonLoads
      = jsonLoads (dumps (.obj (p :: tl))) from rfl,
    jsonLoads_dumps _ hwf]

/-! ### The coercion cascade matches its specification wording -/

theorem pyFloatOk_empty : pyFloatOk "" = false := rfl

theorem convert_tail_eq (s : String) :
    (if lowerAscii s ∈ truthyVocab then Json.bool true
     else if lowerAscii s ∈ falsyVocab then Json.bool false
     else if jwrapped s then
       (match jsonLoads s with
        | some j => j
        | none => Json.str s)
     else Json.str s)
    = (if lowerAscii s ∈ truthyVocab then Json.bool true
       else if lowerAscii s ∈ falsyVocab then Json.bool false
       else if jwrapped s ∧ (jsonLoads s).isSome then (jsonLoads s).getD (Json.str s)
       else Json.str s) := by
  by_cases h1 : lowerAscii s ∈ truthyVocab
  · rw [if_pos h1, if_pos h1]
  · rw [if_neg h1, if_neg h1]
    by_cases h2 : lowerAscii s ∈ falsyVocab
    · rw [if_pos h2, if_pos h2]
    · rw [if_neg h2, if_neg h2]
      by_cases hw : jwrapped s = true
      · rw [if_pos hw]
        cases hjl : jsonLoads s with
        | some j =>
          rw [if_pos ⟨hw, rfl⟩]
          rfl
        | none =>
          rw [if_neg (by
            rintro ⟨_, hs2⟩
            cases hs2)]
      · rw [if_neg hw, if_neg (by rintro ⟨a, _⟩; exact hw a)]

/-- The coercion cascade of `auto_convert_record`, field by field, is
exactly the cascade the specification describes. -/
theorem auto_convert_value_eq_spec (v : Json) :
    auto_convert_value v = coerce_spec v := by
  cases v with
  | null => rfl
  | bool b => rfl
  | int n => rfl
  | float l => rfl
  | arr xs => rfl
  | obj kvs => rfl
  | str t =>
    rw [auto_convert_value, coerce_spec]
    by_cases h1 : pyStrip t ≠ "" ∧ ¬((pyStrip t).data.contains '.' = true)
    · rw [if_pos h1]
      cases hip : pyIntParse (pyStrip t) with
      | some n =>
        have hcond : pyStrip t ≠ "" ∧ ¬(pyStrip t).data.contains '.' = true ∧
            (some n : Option Int).isSome = true := ⟨h1.1, h1.2, rfl⟩
        rw [if_pos hcond]
        rfl
      | none =>
        have hnc : ¬(pyStrip t ≠ "" ∧ ¬(pyStrip t).data.contains '.' = true ∧
            (none : Option Int).isSome = true) := by
          rintro ⟨_, _, hsome⟩
          simp at hsome
        rw [if_neg hnc]
        dsimp only []
        by_cases hfl : pyFloatOk (pyStrip t) = true
        · have hcl : pyStrip t ≠ "" ∧ pyFloatOk (pyStrip t) = true := ⟨h1.1, hfl⟩
          rw [if_pos hcl, if_pos hfl]
        · have hncl : ¬(pyStrip t ≠ "" ∧ pyFloatOk (pyStrip t) = true) := by
            rintro ⟨_, a⟩
            exact hfl a
          rw [if_neg hncl, if_neg hfl]
          exact convert_tail_eq (pyStrip t)
    · rw [if_neg h1]
      have hnc : ¬(pyStrip t ≠ "" ∧ ¬(pyStrip t).data.contains '.' = true ∧
          (pyIntParse (pyStrip t)).isSome = true) := by
        rintro ⟨a, b, _⟩
        exact h1 ⟨a, b⟩
      rw [if_neg hnc]
      dsimp only []
      by_cases hemp : pyStrip t = ""
      · have hncl : ¬(pyStrip t ≠ "" ∧ pyFloatOk (pyStrip t) = true) := by
          rintro ⟨a, _⟩
          exact a hemp
        have hnfl : ¬(pyFloatOk (pyStrip t) = true) := by
          rw [hemp, pyFloatOk_empty]
          simp
        rw [if_neg hncl, if_neg hnfl]
        exact convert_tail_eq (pyStrip t)
      · by_cases hfl : pyFloatOk (pyStrip t) = true
        · have hcl : pyStrip t ≠ "" ∧ pyFloatOk (pyStrip t) = true := ⟨hemp, hfl⟩
          rw [if_pos hcl, if_pos hfl]
        · have hncl : ¬(pyStrip t ≠ "" ∧ pyFloatOk (pyStrip t) = true) := by
            rintro ⟨_, a⟩
            exact hfl a
          rw [if_neg hncl, if_neg hfl]
          exact convert_tail_eq (pyStrip t)

/-- Coercion preserves the key list of a record. -/
theorem auto_convert_record_keys (rec : List (String × Json)) :
    jkeys (auto_convert_record rec) = jkeys rec := by
  rw [auto_convert_record, jkeys, jkeys, List.map_map]
  rfl

/-! ### Supporting bound for the retry loop -/

theorem attemptsOf_connect_loop_le (ok : Nat → Bool) :
    ∀ (rem n : Nat), (attemptsOf (connect_loop ok n rem).1).length ≤ rem := by
  intro rem
  induction rem with
  | zero => intro n; exact Nat.le_refl 0
  | succ r ih =>
    intro n
    rw [connect_loop]
    by_cases hok : ok n = true
    · rw [if_pos hok]
      simp [attemptsOf]
    · rw [if_neg hok]
      by_cases hr : r = 0
      · rw [if_pos hr]
        simp [attemptsOf]
      · rw [if_neg hr]
        have := ih (n + 1)
        rw [show attemptsOf (ConnEvent.attempt n :: ConnEvent.sleep CONNECT_RETRY_DELAY ::
            (connect_loop ok (n + 1) r).1)
            = n :: attemptsOf (connect_loop ok (n + 1) r).1 from rfl]
        simp only [List.length_cons]
        omega

/-! ### The claims -/

/-- C1: on the status topic the publisher strips the payload to a client
identifier and, in one atomic step, serves an unseen identifier the full
record batch exactly once and a known identifier nothing; over any
message sequence each distinct identifier is redelivered exactly once. -/
theorem C1_status_redelivery (topic : String) (records : List Json) (qos : Nat)
    (st : PubState) (i : String) (ps : List String) :
    (∀ payload, pyStrip payload ∉ st.known →
        pub_on_message topic records qos st (status_topic topic) payload =
          ({ known := pyStrip payload :: st.known },
            publish_records_events topic records qos)) ∧
    (∀ payload, pyStrip payload ∈ st.known →
        pub_on_message topic records qos st (status_topic topic) payload = (st, [])) ∧
    (i ∈ st.known → status_redeliveries topic records qos st i ps = 0) ∧
    (i ∉ st.known → (∃ p ∈ ps, pyStrip p = i) →
        status_redeliveries topic records qos st i ps = 1) := by
  refine ⟨?_, ?_, ?_, ?_⟩
  · intro payload h
    rw [pub_on_message, if_pos rfl, if_neg h]
  · intro payload h
    rw [pub_on_message, if_pos rfl, if_pos h]
  · exact fun h => status_redeliveries_of_known topic records qos i ps st h
  · exact fun h hex => status_redeliveries_of_new topic records qos i ps st h hex

theorem C1_status_redelivery_witness :
    status_redeliveries "t" [Json.int 1] 1 ⟨["a"]⟩ "b" ["b", "a", " b "] = 1 ∧
    status_redeliveries "t" [Json.int 1] 1 ⟨["a"]⟩ "a" ["b", "a"] = 0 := by
  refine ⟨?_, ?_⟩
  · exact (C1_status_redelivery "t" [Json.int 1] 1 ⟨["a"]⟩ "b" ["b", "a", " b "]).2.2.2
      (by decide) ⟨"b", by simp, rfl⟩
  · exact (C1_status_redelivery "t" [Json.int 1] 1 ⟨["a"]⟩ "a" ["b", "a"]).2.2.1
      (by simp)

/-- C2: appending to the JSON array log extends a decoded array in place
and in order, while a file holding anything but an array is moved to the
`.bak` slot unchanged and replaced by a fresh one-element array. -/
theorem C2_append_json_record (record : Json) (l : List Json) (b : Option FileData)
    (fd : FileData) (hfd : ∀ xs, fd ≠ .jval (.arr xs)) :
    append_json_record record ⟨some (.jval (.arr l)), b⟩
        = ⟨some (.jval (.arr (l ++ [record]))), b⟩ ∧
    append_json_record record ⟨some fd, b⟩
        = ⟨some (.jval (.arr [record])), some fd⟩ := by
  refine ⟨rfl, ?_⟩
  cases fd with
  | raw s => rfl
  | jval v =>
    cases v with
    | arr xs => exact absurd rfl (hfd xs)
    | null => rfl
    | bool b2 => rfl
    | int n => rfl
    | float lit => rfl
    | str s => rfl
    | obj kvs2 => rfl

theorem C2_append_json_record_witness :
    append_json_record (Json.int 2) ⟨some (.jval (.arr [Json.int 1])), none⟩
        = ⟨some (.jval (.arr [Json.int 1, Json.int 2])), none⟩ ∧
    append_json_record (Json.int 2) ⟨some (.raw "junk"), none⟩
        = ⟨some (.jval (.arr [Json.int 2])), some (.raw "junk")⟩ :=
  C2_append_json_record (Json.int 2) [Json.int 1] none (.raw "junk")
    (fun _ h => nomatch h)

/-- C3: the field coercion is exactly the cascade the claim describes
(trimmed integer, else float, else boolean vocabulary, else wrapped JSON,
else trimmed string), non-strings pass through unchanged, and the record
keeps the same keys — every field gets a value, no failure path. -/
theorem C3_auto_convert (rec : List (String × Json)) :
    (∀ v, auto_convert_value v = coerce_spec v) ∧
    auto_convert_record rec = rec.map (fun kv => (kv.1, coerce_spec kv.2)) ∧
    jkeys (auto_convert_record rec) = jkeys rec ∧
    (∀ v, (∀ s, v ≠ .str s) → auto_convert_value v = v) := by
  refine ⟨auto_convert_value_eq_spec, ?_, auto_convert_record_keys rec, ?_⟩
  · rw [auto_convert_record]
    exact List.map_congr_left (fun kv _ => by rw [auto_convert_value_eq_spec])
  · intro v hv
    cases v with
    | str s => exact absurd rfl (hv s)
    | null => rfl
    | bool b => rfl
    | int n => rfl
    | float l => rfl
    | arr xs => rfl
    | obj kvs => rfl

theorem C3_auto_convert_witness :
    auto_convert_value (.str " 42 ") = coerce_spec (.str " 42 ") ∧
    auto_convert_value (.bool true) = .bool true := by
  refine ⟨(C3_auto_convert []).1 (.str " 42 "), ?_⟩
  exact (C3_auto_convert []).2.2.2 (.bool true) (fun s h => nomatch h)

/-- C4: the subscriber parse pipeline tries the direct parse, then the
unicode-escape retry, then the quote-stripping retry, wraps total failure
as a raw record and non-objects as a value record, and merges metadata
with the parsed record so that the parsed record wins each key
conflict. -/
theorem C4_parse_pipeline (t : String) (v : Json) (ts topic cid k : String) :
    (jsonLoads t = some v → try_parse_json_payload t = some v) ∧
    (jsonLoads t = none → (pyUnicodeEscape t).bind jsonLoads = some v →
        try_parse_json_payload t = some v) ∧
    (jsonLoads t = none → (pyUnicodeEscape t).bind jsonLoads = none →
        jsonLoads (strip3 t) = some v → try_parse_json_payload t = some v) ∧
    (jsonLoads t = none → (pyUnicodeEscape t).bind jsonLoads = none →
        jsonLoads (strip3 t) = none →
        parse_payload_record t = [("raw", .str t)]) ∧
    (try_parse_json_payload t = some v → (∀ kvs, v ≠ .obj kvs) →
        parse_payload_record t = [("value", v)]) ∧
    jlookup k (final_record ts topic cid t) =
      ofirst (jlookupLast k (parse_payload_record t))
        (jlookup k (record_meta ts topic cid)) := by
  refine ⟨?_, ?_, ?_, ?_, ?_, ?_⟩
  · intro h
    rw [try_parse_json_payload, h]
  · intro h1 h2
    rw [try_parse_json_payload, h1, h2]
  · intro h1 h2 h3
    rw [try_parse_json_payload, h1, h2, h3]
  · intro h1 h2 h3
    rw [parse_payload_record, try_parse_json_payload, h1, h2, h3]
  · intro h hv
    rw [parse_payload_record, h]
    cases v with
    | obj kvs => exact absurd rfl (hv kvs)
    | null => rfl
    | bool b => rfl
    | int n => rfl
    | float l => rfl
    | str s => rfl
    | arr xs => rfl
  · rw [final_record]
    exact jlookup_pyMerge k (parse_payload_record t) (record_meta ts topic cid)

theorem C4_parse_pipeline_witness :
    try_parse_json_payload "17" = some (Json.int 17) ∧
    parse_payload_record "\"x\"" = [("value", Json.str "x")] ∧
    jlookup "_topic"
      (final_record "ts" "top" "cid" "\x7b\"_topic\": 5\x7d") = some (Json.int 5) := by
  refine ⟨?_, ?_, ?_⟩
  · exact (C4_parse_pipeline "17" (Json.int 17) "" "" "" "").1 rfl
  · exact (C4_parse_pipeline "\"x\"" (Json.str "x") "" "" "" "").2.2.2.2.1 rfl
      (fun kvs h => nomatch h)
  · rw [(C4_parse_pipeline "\x7b\"_topic\": 5\x7d" Json.null "ts" "top" "cid"
      "_topic").2.2.2.2.2]
    rfl

/-- C5 (amended): a record published as `json.dumps` text round-trips
through the layered parser for any well-formed value, in particular for
plain string payloads.  The once-escaped leg holds only for ASCII
serializations: the unicode-escape retry that recovers them decodes the
UTF-8 bytes of any non-ASCII character as Latin-1, so the unqualified
once-escaped round trip of the claim is false (see the
counterexample). -/
theorem C5_round_trip (v : Json) (s : String) (p : String × Json)
    (tl : List (String × Json)) (hwf : wfJson v = true)
    (hobj : wfJson (.obj (p :: tl)) = true)
    (hascii : allAscii (dumps (.obj (p :: tl))).data = true) :
    try_parse_json_payload (dumps v) = some v ∧
    try_parse_json_payload (dumps (.str s)) = some (.str s) ∧
    try_parse_json_payload (onceEscape (dumps (.obj (p :: tl)))) =
      some (.obj (p :: tl)) := by
  refine ⟨try_parse_dumps v hwf, try_parse_dumps (.str s) rfl, ?_⟩
  exact try_parse_onceEscape_obj p tl hobj hascii

theorem C5_round_trip_witness :
    try_parse_json_payload (dumps (.obj [("id", Json.int 1)])) =
      some (.obj [("id", Json.int 1)]) ∧
    try_parse_json_payload (dumps (.str "hi")) = some (.str "hi") ∧
    try_parse_json_payload (onceEscape (dumps (.obj [("id", Json.int 1)]))) =
      some (.obj [("id", Json.int 1)]) :=
  C5_round_trip (.obj [("id", Json.int 1)]) "hi" ("id", Json.int 1) []
    (by decide) (by decide) (by decide)

/-- C5 counterexample: the once-escaped payload of `\x7b"a": "\u00e9"\x7d`
is decoded by the unicode-escape retry with its UTF-8 bytes read as
Latin-1, so the layered parser returns `\x7b"a": "\u00c3\u00a9"\x7d` — not an
object equivalent to the original record. -/
theorem C5_round_trip_counterexample :
    try_parse_json_payload (onceEscape (dumps (Json.obj [("a", Json.str "\u00e9")]))) =
      some (Json.obj [("a", Json.str "\u00c3\u00a9")]) ∧
    Json.obj [("a", Json.str "\u00c3\u00a9")] ≠ Json.obj [("a", Json.str "\u00e9")] := by
  refine ⟨rfl, ?_⟩
  intro h
  simp only [Json.obj.injEq, List.cons.injEq, Prod.mk.injEq, Json.str.injEq] at h
  exact absurd h.1.2 (by decide)

/-- C6: the scenario CSV `id,active / 1,true` yields exactly one record,
`id` coerced to the integer 1 and `active` to true, published once to the
configured topic; its serialization is JSON-equal to the claim's
`\x7bid:1,active:true\x7d` text. -/
theorem C6_csv_scenario :
    main_csv_records "id,active\n1,true\n"
        = [Json.obj [("id", .int 1), ("active", .bool true)]] ∧
    publish_records_events "t" (main_csv_records "id,active\n1,true\n") 1 =
      [⟨"t", dumps (Json.obj [("id", .int 1), ("active", .bool true)]), 1⟩] ∧
    jsonLoads (dumps (Json.obj [("id", .int 1), ("active", .bool true)])) =
      jsonLoads "\x7b\"id\":1,\"active\":true\x7d" :=
  ⟨rfl, rfl, rfl⟩

/-- C7: a heartbeat payload equal to `"ready"` makes the subscriber
announce its client id on the status topic at QoS 1 (and any other
heartbeat payload nothing); an unknown announcement makes the publisher
record the id and republish all N records. -/
theorem C7_heartbeat (clientId ts : String) (st : SubState) (pst : PubState)
    (topic : String) (records : List Json) (qos : Nat)
    (hnew : pyStrip clientId ∉ pst.known) :
    sub_on_message clientId ts st HEARTBEAT_TOPIC "ready" =
      (st, [⟨STATUS_TOPIC, clientId, 1⟩]) ∧
    (∀ p, p ≠ "ready" → sub_on_message clientId ts st HEARTBEAT_TOPIC p = (st, [])) ∧
    pub_on_message topic records qos pst (status_topic topic) clientId =
      ({ known := pyStrip clientId :: pst.known },
        publish_records_events topic records qos) ∧
    (publish_records_events topic records qos).length = records.length := by
  refine ⟨?_, ?_, ?_, ?_⟩
  · rw [sub_on_message, if_pos rfl, if_pos rfl]
  · intro p hp
    rw [sub_on_message, if_pos rfl, if_neg hp]
  · rw [pub_on_message, if_pos rfl, if_neg hnew]
  · rw [publish_records_events, List.length_map]

theorem C7_heartbeat_witness :
    sub_on_message "c1" "ts" ⟨[], ⟨none, none⟩⟩ HEARTBEAT_TOPIC "ready" =
      (⟨[], ⟨none, none⟩⟩, [⟨STATUS_TOPIC, "c1", 1⟩]) ∧
    pub_on_message "t" [Json.int 1, Json.int 2] 1 ⟨[]⟩ (status_topic "t") "c1" =
      (⟨["c1"]⟩, publish_records_events "t" [Json.int 1, Json.int 2] 1) := by
  have h := C7_heartbeat "c1" "ts" ⟨[], ⟨none, none⟩⟩ ⟨[]⟩ "t"
    [Json.int 1, Json.int 2] 1 (by simp)
  exact ⟨h.1, h.2.2.1⟩

/-- C8: the broker connection is tried at most 12 times with a 1-second
sleep between attempts, a success stops the loop at once, exhaustion is
fatal with exit status 1, and an unsupported source type (or missing
path) also exits with status 1. -/
theorem C8_connect_retry (okA okB okC : Nat → Bool) (n rem rc : Nat)
    (srcType : String) (hok : okA n = true) (hfail : ∀ m, okB m = false)
    (hsrc : ¬(lowerAscii srcType = "csv" ∨ lowerAscii srcType = "json")) :
    MAX_CONNECT_RETRIES = 12 ∧
    CONNECT_RETRY_DELAY = 1 ∧
    connect_loop okA n (rem + 1) = ([.attempt n], true) ∧
    (attemptsOf (connect_with_retry okC).1).length ≤ 12 ∧
    attemptsOf (connect_with_retry okB).1 = List.range' 1 12 ∧
    sleepsOf (connect_with_retry okB).1 = List.replicate 11 CONNECT_RETRY_DELAY ∧
    publisher_main_outcome true "csv" (rc + 1) okB = .exitCode 1 ∧
    publisher_main_outcome true srcType rc okA = .exitCode 1 ∧
    publisher_main_outcome false srcType rc okA = .exitCode 1 := by
  obtain ⟨ha, hs, hf⟩ := connect_with_retry_all_fail okB hfail
  refine ⟨rfl, rfl, connect_loop_ok okA n rem hok,
    attemptsOf_connect_loop_le okC 12 1, ha, hs, ?_, ?_, ?_⟩
  · rw [publisher_main_outcome, if_neg (by simp), if_neg (by simp [lowerAscii]),
      if_neg (by omega), if_neg (by rw [hf]; simp)]
  · rw [publisher_main_outcome, if_neg (by simp), if_pos hsrc]
  · rw [publisher_main_outcome, if_pos (by simp)]

theorem C8_connect_retry_witness :
    connect_loop (fun _ => true) 1 12 = ([.attempt 1], true) ∧
    attemptsOf (connect_with_retry (fun _ => false)).1 = List.range' 1 12 ∧
    publisher_main_outcome true "xml" 3 (fun _ => true) = .exitCode 1 := by
  have h := C8_connect_retry (fun _ => true) (fun _ => false) (fun _ => true)
    1 11 3 "xml" rfl (fun m => rfl) (by decide)
  exact ⟨h.2.2.1, h.2.2.2.2.1, h.2.2.2.2.2.2.2.1⟩

/-- C9 (amended): the publisher JSON loader wraps a top-level object in a
one-element list and passes an array through unchanged; a scalar
top-level value, however, is returned as-is, not as a list. -/
theorem C9_load_json :
    (∀ kvs, load_json (.obj kvs) = .arr [.obj kvs]) ∧
    (∀ xs, load_json (.arr xs) = .arr xs) := by
  refine ⟨?_, ?_⟩
  · intro kvs
    rfl
  · intro xs
    rfl

/-- C9 counterexample: a scalar top-level JSON value refutes "always
returns a list of records" — `load_json` hands the scalar back
unchanged. -/
theorem C9_load_json_counterexample :
    load_json (Json.int 5) = Json.int 5 ∧
    ∀ xs, load_json (Json.int 5) ≠ Json.arr xs := by
  refine ⟨rfl, ?_⟩
  intro xs h
  exact nomatch h

/-- C10: on any topic other than the data topic and the heartbeat topic
the subscriber handler is a no-op — state (both log files) unchanged and
nothing published. -/
theorem C10_other_topic (clientId ts : String) (st : SubState)
    (topic payload : String) (h1 : topic ≠ TOPIC) (h2 : topic ≠ HEARTBEAT_TOPIC) :
    sub_on_message clientId ts st topic payload = (st, []) := by
  rw [sub_on_message, if_neg h2, if_neg h1]

theorem C10_other_topic_witness :
    sub_on_message "c" "ts" ⟨["line"], ⟨none, none⟩⟩ "some/other" "x" =
      (⟨["line"], ⟨none, none⟩⟩, []) :=
  C10_other_topic "c" "ts" ⟨["line"], ⟨none, none⟩⟩ "some/other" "x"
    (by decide) (by decide)

end Mqtt
